import Mathlib

/-!
The mkr maths library: the generic matrix and the matrix algebra of `matrix_util`.

A shallow embedding of `src/maths/matrix.h`, `src/maths/matrix_utils.h`,
`src/maths/matrix_utils.cpp` and the part of `src/maths/vector3.cpp` the builders use,
and the properties of the specification that bear on them.

* `float` values are read as exact rationals (`ℚ`): no rounding, and `x / 0 = 0`
  where IEEE arithmetic gives an infinity or a NaN.
* `size_t` values are natural numbers; where the source computes in `size_t`
  (the sign factors of `determinant` and `cofactor_matrix`) the arithmetic is
  taken modulo `2 ^ size_t_bits`, as C++ unsigned arithmetic is, and the result
  is converted to a rational without rounding.
* A `matrix<Columns, Rows>` is its flat array `values_[Columns * Rows]`;
  `m[column][row]` is `values_[column * Rows + row]`, as `operator[]` computes it.
* `for` loops are `loop`, run on an explicit loop state.
* Overloads are told apart by the size argument (`determinant`, `cofactor_matrix`)
  or by name (`inverse_matrix4x4` for the non-template `inverse_matrix`).
* `maths_util::approx_equal` is a parameter of the operations that call it.
* `std::cos`, `std::sin` and `std::tan` are parameters of the builders that call them
  (`cmath`): nothing is assumed of their values but what a property states.
* The generic template path is not well-formed as written: `minor_matrix` has `float`
  counters as subscripts and no `return` statement, `cofactor_matrix<Size>` hides the
  function `determinant` behind a local of that name, and `inverse_matrix<Size>` uses a
  scalar-times-matrix operator that `matrix.h` does not declare. `minor_matrix`,
  `determinant`, `cofactor_matrix` and `inverse_matrix` are these functions read as they
  are meant; `determinant_returned` leaves open what a call of `minor_matrix` hands back.
* `minor_matrix_writes` is the pair of loops of `minor_matrix` with the assignments
  recorded.
-/

namespace mkr

/-- A counted loop `for (size_t i = 0; i < n; ++i) body`: `body i` is applied to the
loop state for `i = 0, 1, ..., n - 1`, in that order. -/
def loop {σ : Type} (n : Nat) (body : Nat → σ → σ) (init : σ) : σ :=
  match n with
  | 0 => init
  | k + 1 => body k (loop k body init)

/-- The class `matrix<Columns, Rows>`: the flat storage `float values_[Columns*Rows]`. -/
structure matrix (Columns Rows : Nat) where
  values_ : Fin (Columns * Rows) → ℚ

namespace matrix

variable {Columns Rows : Nat}

instance : DecidableEq (matrix Columns Rows) := fun a b =>
  decidable_of_iff (a.values_ = b.values_)
    ⟨fun h => by cases a; cases b; cases h; rfl, fun h => by rw [h]⟩

/-- The constant `num_elements = Columns*Rows`. -/
def num_elements (_m : matrix Columns Rows) : Nat := Columns * Rows

/-- The default constructor and `zero()`: every element is `0.0f`. -/
def zero : matrix Columns Rows := ⟨fun _ => 0⟩

/-- A read of `values_[i]`. An index past the array (undefined behaviour in the
source) reads as 0. -/
def read (m : matrix Columns Rows) (i : Nat) : ℚ :=
  if h : i < Columns * Rows then m.values_ ⟨i, h⟩ else 0

/-- The assignment `values_[i] = v`. An index past the array (undefined behaviour
in the source) changes nothing. -/
def write (m : matrix Columns Rows) (i : Nat) (v : ℚ) : matrix Columns Rows :=
  ⟨fun j => if j.val = i then v else m.values_ j⟩

/-- A read of `m[column][row]`: `operator[]` returns `&values_[column*Rows]`, which
is then indexed by `row`. -/
def get (m : matrix Columns Rows) (column row : Nat) : ℚ :=
  m.read (column * Rows + row)

/-- The assignment `m[column][row] = v`. -/
def set (m : matrix Columns Rows) (column row : Nat) (v : ℚ) : matrix Columns Rows :=
  m.write (column * Rows + row) v

/-- The function `identity()`, for square matrices: `result[i][i] = 1.0f` for every
`i < Columns` on a zero matrix. -/
def identity (Size : Nat) : matrix Size Size :=
  loop Size (fun i result => result.set i i 1) zero

/-- The operator `==`: false as soon as two elements at the same index are not
`approx_equal`, true when the loop over `num_elements` ends. The scalar test
`maths_util::approx_equal` is not part of the sources read here and is a parameter. -/
def eq_op (approx_equal : ℚ → ℚ → Bool) (lhs rhs : matrix Columns Rows) : Bool :=
  (List.range (Columns * Rows)).all (fun i => approx_equal (lhs.read i) (rhs.read i))

/-- The operator `*` with a scalar on the right: `result.values_[i] = values_[i]*_scalar`. -/
def mul_scalar (m : matrix Columns Rows) (_scalar : ℚ) : matrix Columns Rows :=
  loop (Columns * Rows) (fun i result => result.write i (m.read i * _scalar)) zero

/-- Modelled from the spec: the operator `*` with the scalar on the left, which
`inverse_matrix` uses and `matrix.h` does not declare; the spec states that
scalar multiplication is an element-wise scale defined in both orders. -/
def scalar_mul (_scalar : ℚ) (m : matrix Columns Rows) : matrix Columns Rows :=
  loop (Columns * Rows) (fun i result => result.write i (_scalar * m.read i)) zero

/-- The operator `*` between matrices: on a zero `result`,
`result[i][j] += (*this)[k][j]*_rhs[i][k]` in the loops over `i < RHSColumns`,
`j < Rows`, `k < Columns`. -/
def mul {RHSColumns : Nat} (lhs : matrix Columns Rows) (_rhs : matrix RHSColumns Columns) :
    matrix RHSColumns Rows :=
  loop RHSColumns (fun i result =>
    loop Rows (fun j result =>
      loop Columns (fun k result =>
        result.set i j (result.get i j + lhs.get k j * _rhs.get i k)) result) result) zero

/-- The function `transposed()`: `result[j][i] = (*this)[i][j]` in the loops over
`i < Columns`, `j < Rows`. -/
def transposed (m : matrix Columns Rows) : matrix Rows Columns :=
  loop Columns (fun i result =>
    loop Rows (fun j result => result.set j i (m.get i j)) result) zero

end matrix

/-- The width of `size_t` in bits (LP64 and LLP64 targets). -/
def size_t_bits : Nat := 64

/-- The conversion of the `int` literal `-2` to `size_t`, which the usual arithmetic
conversions apply when the other operand is a `size_t`: `2 ^ size_t_bits - 2`. -/
def minus_two_as_size_t : Nat := 2 ^ size_t_bits - 2

namespace matrix_util

/-- The inner loop of `minor_matrix`, over `major_row`; the loop state is the pair
`(mat, minor_row)`. -/
def minor_matrix_rows {Size : Nat} (_matrix : matrix Size Size) (_cofactor_row : Nat)
    (major_col minor_col : Nat) (mat : matrix (Size - 1) (Size - 1)) :
    matrix (Size - 1) (Size - 1) × Nat :=
  loop Size (fun major_row st =>
    if major_row = _cofactor_row then st
    else (st.1.set minor_col st.2 (_matrix.get major_col major_row), st.2 + 1)) (mat, 0)

/-- The loops of `minor_matrix<Size>`, over `major_col`; the loop state is the pair
`(mat, minor_col)`. The four counters are declared `float` in the source, which makes
the subscript `mat[minor_col][minor_row]` ill-formed (a `float*` indexed by a `float`);
they are read here as the `size_t` counters they stand for. -/
def minor_matrix_cols {Size : Nat} (_matrix : matrix Size Size)
    (_cofactor_col _cofactor_row : Nat) : matrix (Size - 1) (Size - 1) × Nat :=
  loop Size (fun major_col st =>
    if major_col = _cofactor_col then st
    else ((minor_matrix_rows _matrix _cofactor_row major_col st.2 st.1).1, st.2 + 1))
    (matrix.zero, 0)

/-- The function `minor_matrix<Size>` with the statement `return mat;` that its body
lacks: the local `mat` when the loops end. As written the body ends after the loops and
the caller is handed no defined matrix; `determinant_returned` is `determinant` with
the handed-back object left open. -/
def minor_matrix {Size : Nat} (_matrix : matrix Size Size)
    (_cofactor_col _cofactor_row : Nat) : matrix (Size - 1) (Size - 1) :=
  (minor_matrix_cols _matrix _cofactor_col _cofactor_row).1

/-- The factor `1+((column & 1)*-2)` of `determinant<Size>`, computed in `size_t`. -/
def determinant_sign (column : Nat) : Nat :=
  (1 + ((column &&& 1) * minus_two_as_size_t) % 2 ^ size_t_bits) % 2 ^ size_t_bits

/-- The function `determinant`: the overloads for `matrix<1, 1>` and `matrix2x2`, and
the template `determinant<Size>` for the other sizes, whose call
`determinant(minor_mat)` resolves to the overload or template of size `Size - 1`.
The call `minor_matrix(_matrix, column, 0)` is given the matrix that the loops of
`minor_matrix` build. (`matrix<0, 0>` cannot be instantiated; size 0 is given the
value 0.) -/
def determinant : (Size : Nat) → matrix Size Size → ℚ
  | 0, _ => 0
  | 1, _matrix => _matrix.get 0 0
  | 2, _matrix => (_matrix.get 0 0 * _matrix.get 1 1) - (_matrix.get 1 0 * _matrix.get 0 1)
  | n + 3, _matrix =>
    loop (n + 3) (fun column det =>
      let cofactor := _matrix.get column 0
      let cofactor := cofactor * (determinant_sign column : ℚ)
      let minor_mat : matrix (n + 2) (n + 2) := minor_matrix _matrix column 0
      det + determinant (n + 2) minor_mat * cofactor) 0

/-- The function `determinant` with the value of the calls of `minor_matrix` left open.
The body of `minor_matrix` has no `return` statement, so the object a call hands back is
not set by the function: `_returned n m column row` stands for the `matrix<n, n>` that
the call `minor_matrix(m, column, row)` hands back, and nothing is assumed of it. The
overloads for `matrix<1, 1>` and `matrix2x2` do not call `minor_matrix`. -/
def determinant_returned
    (_returned : (n : Nat) → matrix (n + 1) (n + 1) → Nat → Nat → matrix n n) :
    (Size : Nat) → matrix Size Size → ℚ
  | 0, _ => 0
  | 1, _matrix => _matrix.get 0 0
  | 2, _matrix => (_matrix.get 0 0 * _matrix.get 1 1) - (_matrix.get 1 0 * _matrix.get 0 1)
  | n + 3, _matrix =>
    loop (n + 3) (fun column det =>
      let cofactor := _matrix.get column 0
      let cofactor := cofactor * (determinant_sign column : ℚ)
      let minor_mat : matrix (n + 2) (n + 2) := _returned (n + 2) _matrix column 0
      det + determinant_returned _returned (n + 2) minor_mat * cofactor) 0

/-- The factor `(1+(column ^ row)*-2)` of `cofactor_matrix<Size>`, computed in `size_t`. -/
def cofactor_sign (column row : Nat) : Nat :=
  (1 + ((column ^^^ row) * minus_two_as_size_t) % 2 ^ size_t_bits) % 2 ^ size_t_bits

/-- The function `cofactor_matrix`: the overload for `matrix<1, 1>`, which returns its
argument, and the template `cofactor_matrix<Size>` for the other sizes. In the template
the statement `float determinant = determinant(minor_matrix(_matrix, column, row));`
declares a local that hides the function in its own initialiser, which is ill-formed as
written; it is read as the call of the function `determinant` on the minor that it
stands for, with the matrix that the loops of `minor_matrix` build.
(`matrix<0, 0>` cannot be instantiated.) -/
def cofactor_matrix : (Size : Nat) → matrix Size Size → matrix Size Size
  | 0, _matrix => _matrix
  | 1, _matrix => _matrix
  | n + 2, _matrix =>
    loop (n + 2) (fun column mat =>
      loop (n + 2) (fun row mat =>
        let determinant_ := determinant (n + 1) (minor_matrix _matrix column row)
        mat.set column row (determinant_ * (cofactor_sign column row : ℚ))) mat) matrix.zero

/-- The function `adjugate_matrix<Size>`: `cofactor_matrix(_matrix).transposed()`. -/
def adjugate_matrix (Size : Nat) (_matrix : matrix Size Size) : matrix Size Size :=
  (cofactor_matrix Size _matrix).transposed

/-- The function `has_inverse<Size>`: `!maths_util::approx_equal(determinant(_matrix), 0.0f)`. -/
def has_inverse (approx_equal : ℚ → ℚ → Bool) (Size : Nat) (_matrix : matrix Size Size) : Bool :=
  !approx_equal (determinant Size _matrix) 0

/-- The template `inverse_matrix<Size>`: `std::nullopt` (here `none`) when
`has_inverse` is false, else `1.0f/determinant(_matrix)*adjugate_matrix(_matrix)`. -/
def inverse_matrix (approx_equal : ℚ → ℚ → Bool) (Size : Nat) (_matrix : matrix Size Size) :
    Option (matrix Size Size) :=
  if !has_inverse approx_equal Size _matrix then none
  else some (matrix.scalar_mul (1 / determinant Size _matrix) (adjugate_matrix Size _matrix))

/-- The 16 assignments `mat[0][k] = ...` that open `inverse_matrix(const matrix4x4&)`:
the local `mat` before it is scaled. `_matrix[0][k]` is the element `values_[k]`. -/
def inverse_matrix4x4_mat (_matrix : matrix 4 4) : matrix 4 4 :=
  let mat : matrix 4 4 := matrix.zero
  let mat := mat.set 0 0 (
      _matrix.get 0 5 * _matrix.get 0 10 * _matrix.get 0 15
      - _matrix.get 0 5 * _matrix.get 0 11 * _matrix.get 0 14
      - _matrix.get 0 9 * _matrix.get 0 6 * _matrix.get 0 15
      + _matrix.get 0 9 * _matrix.get 0 7 * _matrix.get 0 14
      + _matrix.get 0 13 * _matrix.get 0 6 * _matrix.get 0 11
      - _matrix.get 0 13 * _matrix.get 0 7 * _matrix.get 0 10)
  let mat := mat.set 0 4 (
      -_matrix.get 0 4 * _matrix.get 0 10 * _matrix.get 0 15
      + _matrix.get 0 4 * _matrix.get 0 11 * _matrix.get 0 14
      + _matrix.get 0 8 * _matrix.get 0 6 * _matrix.get 0 15
      - _matrix.get 0 8 * _matrix.get 0 7 * _matrix.get 0 14
      - _matrix.get 0 12 * _matrix.get 0 6 * _matrix.get 0 11
      + _matrix.get 0 12 * _matrix.get 0 7 * _matrix.get 0 10)
  let mat := mat.set 0 8 (
      _matrix.get 0 4 * _matrix.get 0 9 * _matrix.get 0 15
      - _matrix.get 0 4 * _matrix.get 0 11 * _matrix.get 0 13
      - _matrix.get 0 8 * _matrix.get 0 5 * _matrix.get 0 15
      + _matrix.get 0 8 * _matrix.get 0 7 * _matrix.get 0 13
      + _matrix.get 0 12 * _matrix.get 0 5 * _matrix.get 0 11
      - _matrix.get 0 12 * _matrix.get 0 7 * _matrix.get 0 9)
  let mat := mat.set 0 12 (
      -_matrix.get 0 4 * _matrix.get 0 9 * _matrix.get 0 14
      + _matrix.get 0 4 * _matrix.get 0 10 * _matrix.get 0 13
      + _matrix.get 0 8 * _matrix.get 0 5 * _matrix.get 0 14
      - _matrix.get 0 8 * _matrix.get 0 6 * _matrix.get 0 13
      - _matrix.get 0 12 * _matrix.get 0 5 * _matrix.get 0 10
      + _matrix.get 0 12 * _matrix.get 0 6 * _matrix.get 0 9)
  let mat := mat.set 0 1 (
      -_matrix.get 0 1 * _matrix.get 0 10 * _matrix.get 0 15
      + _matrix.get 0 1 * _matrix.get 0 11 * _matrix.get 0 14
      + _matrix.get 0 9 * _matrix.get 0 2 * _matrix.get 0 15
      - _matrix.get 0 9 * _matrix.get 0 3 * _matrix.get 0 14
      - _matrix.get 0 13 * _matrix.get 0 2 * _matrix.get 0 11
      + _matrix.get 0 13 * _matrix.get 0 3 * _matrix.get 0 10)
  let mat := mat.set 0 5 (
      _matrix.get 0 0 * _matrix.get 0 10 * _matrix.get 0 15
      - _matrix.get 0 0 * _matrix.get 0 11 * _matrix.get 0 14
      - _matrix.get 0 8 * _matrix.get 0 2 * _matrix.get 0 15
      + _matrix.get 0 8 * _matrix.get 0 3 * _matrix.get 0 14
      + _matrix.get 0 12 * _matrix.get 0 2 * _matrix.get 0 11
      - _matrix.get 0 12 * _matrix.get 0 3 * _matrix.get 0 10)
  let mat := mat.set 0 9 (
      -_matrix.get 0 0 * _matrix.get 0 9 * _matrix.get 0 15
      + _matrix.get 0 0 * _matrix.get 0 11 * _matrix.get 0 13
      + _matrix.get 0 8 * _matrix.get 0 1 * _matrix.get 0 15
      - _matrix.get 0 8 * _matrix.get 0 3 * _matrix.get 0 13
      - _matrix.get 0 12 * _matrix.get 0 1 * _matrix.get 0 11
      + _matrix.get 0 12 * _matrix.get 0 3 * _matrix.get 0 9)
  let mat := mat.set 0 13 (
      _matrix.get 0 0 * _matrix.get 0 9 * _matrix.get 0 14
      - _matrix.get 0 0 * _matrix.get 0 10 * _matrix.get 0 13
      - _matrix.get 0 8 * _matrix.get 0 1 * _matrix.get 0 14
      + _matrix.get 0 8 * _matrix.get 0 2 * _matrix.get 0 13
      + _matrix.get 0 12 * _matrix.get 0 1 * _matrix.get 0 10
      - _matrix.get 0 12 * _matrix.get 0 2 * _matrix.get 0 9)
  let mat := mat.set 0 2 (
      _matrix.get 0 1 * _matrix.get 0 6 * _matrix.get 0 15
      - _matrix.get 0 1 * _matrix.get 0 7 * _matrix.get 0 14
      - _matrix.get 0 5 * _matrix.get 0 2 * _matrix.get 0 15
      + _matrix.get 0 5 * _matrix.get 0 3 * _matrix.get 0 14
      + _matrix.get 0 13 * _matrix.get 0 2 * _matrix.get 0 7
      - _matrix.get 0 13 * _matrix.get 0 3 * _matrix.get 0 6)
  let mat := mat.set 0 6 (
      -_matrix.get 0 0 * _matrix.get 0 6 * _matrix.get 0 15
      + _matrix.get 0 0 * _matrix.get 0 7 * _matrix.get 0 14
      + _matrix.get 0 4 * _matrix.get 0 2 * _matrix.get 0 15
      - _matrix.get 0 4 * _matrix.get 0 3 * _matrix.get 0 14
      - _matrix.get 0 12 * _matrix.get 0 2 * _matrix.get 0 7
      + _matrix.get 0 12 * _matrix.get 0 3 * _matrix.get 0 6)
  let mat := mat.set 0 10 (
      _matrix.get 0 0 * _matrix.get 0 5 * _matrix.get 0 15
      - _matrix.get 0 0 * _matrix.get 0 7 * _matrix.get 0 13
      - _matrix.get 0 4 * _matrix.get 0 1 * _matrix.get 0 15
      + _matrix.get 0 4 * _matrix.get 0 3 * _matrix.get 0 13
      + _matrix.get 0 12 * _matrix.get 0 1 * _matrix.get 0 7
      - _matrix.get 0 12 * _matrix.get 0 3 * _matrix.get 0 5)
  let mat := mat.set 0 14 (
      -_matrix.get 0 0 * _matrix.get 0 5 * _matrix.get 0 14
      + _matrix.get 0 0 * _matrix.get 0 6 * _matrix.get 0 13
      + _matrix.get 0 4 * _matrix.get 0 1 * _matrix.get 0 14
      - _matrix.get 0 4 * _matrix.get 0 2 * _matrix.get 0 13
      - _matrix.get 0 12 * _matrix.get 0 1 * _matrix.get 0 6
      + _matrix.get 0 12 * _matrix.get 0 2 * _matrix.get 0 5)
  let mat := mat.set 0 3 (
      -_matrix.get 0 1 * _matrix.get 0 6 * _matrix.get 0 11
      + _matrix.get 0 1 * _matrix.get 0 7 * _matrix.get 0 10
      + _matrix.get 0 5 * _matrix.get 0 2 * _matrix.get 0 11
      - _matrix.get 0 5 * _matrix.get 0 3 * _matrix.get 0 10
      - _matrix.get 0 9 * _matrix.get 0 2 * _matrix.get 0 7
      + _matrix.get 0 9 * _matrix.get 0 3 * _matrix.get 0 6)
  let mat := mat.set 0 7 (
      _matrix.get 0 0 * _matrix.get 0 6 * _matrix.get 0 11
      - _matrix.get 0 0 * _matrix.get 0 7 * _matrix.get 0 10
      - _matrix.get 0 4 * _matrix.get 0 2 * _matrix.get 0 11
      + _matrix.get 0 4 * _matrix.get 0 3 * _matrix.get 0 10
      + _matrix.get 0 8 * _matrix.get 0 2 * _matrix.get 0 7
      - _matrix.get 0 8 * _matrix.get 0 3 * _matrix.get 0 6)
  let mat := mat.set 0 11 (
      -_matrix.get 0 0 * _matrix.get 0 5 * _matrix.get 0 11
      + _matrix.get 0 0 * _matrix.get 0 7 * _matrix.get 0 9
      + _matrix.get 0 4 * _matrix.get 0 1 * _matrix.get 0 11
      - _matrix.get 0 4 * _matrix.get 0 3 * _matrix.get 0 9
      - _matrix.get 0 8 * _matrix.get 0 1 * _matrix.get 0 7
      + _matrix.get 0 8 * _matrix.get 0 3 * _matrix.get 0 5)
  let mat := mat.set 0 15 (
      _matrix.get 0 0 * _matrix.get 0 5 * _matrix.get 0 10
      - _matrix.get 0 0 * _matrix.get 0 6 * _matrix.get 0 9
      - _matrix.get 0 4 * _matrix.get 0 1 * _matrix.get 0 10
      + _matrix.get 0 4 * _matrix.get 0 2 * _matrix.get 0 9
      + _matrix.get 0 8 * _matrix.get 0 1 * _matrix.get 0 6
      - _matrix.get 0 8 * _matrix.get 0 2 * _matrix.get 0 5)
  mat

/-- The local `float determinant` of `inverse_matrix(const matrix4x4&)`, as first
assigned: the sum of four products along the first four elements. -/
def inverse_matrix4x4_determinant (_matrix : matrix 4 4) : ℚ :=
  let mat := inverse_matrix4x4_mat _matrix
  _matrix.get 0 0 * mat.get 0 0
    + _matrix.get 0 1 * mat.get 0 4
    + _matrix.get 0 2 * mat.get 0 8
    + _matrix.get 0 3 * mat.get 0 12

/-- The function `inverse_matrix(const matrix4x4&)`, the non-template overload that a
call with a `matrix4x4` argument selects: `determinant = 1.0f/determinant`, then
`mat[0][i] *= determinant` for `i < 16`. It returns a `matrix4x4`, not an optional. -/
def inverse_matrix4x4 (_matrix : matrix 4 4) : matrix 4 4 :=
  let mat := inverse_matrix4x4_mat _matrix
  let determinant_ := inverse_matrix4x4_determinant _matrix
  let determinant_ := 1 / determinant_
  loop 16 (fun i mat => mat.set 0 i (mat.get 0 i * determinant_)) mat

end matrix_util

/-! ### Vectors and the transform and projection builders -/

/-- The class `vector3`: the components `x_`, `y_`, `z_`. -/
structure vector3 where
  x_ : ℚ
  y_ : ℚ
  z_ : ℚ
deriving DecidableEq

namespace vector3

/-- The function `vector3::cross`. -/
def cross (v _vector : vector3) : vector3 :=
  let x := v.y_ * _vector.z_ - v.z_ * _vector.y_
  let y := v.z_ * _vector.x_ - v.x_ * _vector.z_
  let z := v.x_ * _vector.y_ - v.y_ * _vector.x_
  ⟨x, y, z⟩

end vector3

namespace vector3

/-- The constant `vector3::zero`. -/
def zero : vector3 := ⟨0, 0, 0⟩

/-- The constant `vector3::up`. -/
def up : vector3 := ⟨0, 1, 0⟩

/-- The constant `vector3::down`. -/
def down : vector3 := ⟨0, -1, 0⟩

/-- The constant `vector3::left`. -/
def left : vector3 := ⟨1, 0, 0⟩

/-- The constant `vector3::right`. -/
def right : vector3 := ⟨-1, 0, 0⟩

/-- The constant `vector3::forwards`. -/
def forwards : vector3 := ⟨0, 0, 1⟩

/-- The constant `vector3::backwards`. -/
def backwards : vector3 := ⟨0, 0, -1⟩

/-- The unary `operator-`. -/
def neg (v : vector3) : vector3 := ⟨-v.x_, -v.y_, -v.z_⟩

/-- The operator `==`: the three components are `approx_equal`. The scalar test is a
parameter, as for the matrices. -/
def eq_op (approx_equal : ℚ → ℚ → Bool) (v _rhs : vector3) : Bool :=
  approx_equal v.x_ _rhs.x_ && approx_equal v.y_ _rhs.y_ && approx_equal v.z_ _rhs.z_

/-- The binary `operator+`. -/
def add (v _rhs : vector3) : vector3 := ⟨v.x_ + _rhs.x_, v.y_ + _rhs.y_, v.z_ + _rhs.z_⟩

/-- The function `vector3::dot`. -/
def dot (v _vector : vector3) : ℚ :=
  v.x_ * _vector.x_ + v.y_ * _vector.y_ + v.z_ * _vector.z_

end vector3

/-- The functions `std::cos`, `std::sin` and `std::tan` of `<cmath>`, which the builders
call: their values are not rational in general, so the three functions are parameters. -/
structure cmath where
  cos : ℚ → ℚ
  sin : ℚ → ℚ
  tan : ℚ → ℚ

namespace matrix_util

/-- The function `translation_matrix`. -/
def translation_matrix (_translation : vector3) : matrix 4 4 :=
  let mat := matrix.identity 4
  let mat := mat.set 3 0 _translation.x_
  let mat := mat.set 3 1 _translation.y_
  let mat := mat.set 3 2 _translation.z_
  mat

/-- The function `rotation_matrix_x`. The chained assignment
`mat[1][1] = mat[2][2] = std::cos(_angle)` assigns `mat[2][2]` first. -/
def rotation_matrix_x (std : cmath) (_angle : ℚ) : matrix 4 4 :=
  let mat := matrix.identity 4
  let mat := mat.set 2 2 (std.cos _angle)
  let mat := mat.set 1 1 (mat.get 2 2)
  let mat := mat.set 1 2 (std.sin _angle)
  let mat := mat.set 2 1 (-mat.get 1 2)
  mat

/-- The function `rotation_matrix_y`. -/
def rotation_matrix_y (std : cmath) (_angle : ℚ) : matrix 4 4 :=
  let mat := matrix.identity 4
  let mat := mat.set 2 2 (std.cos _angle)
  let mat := mat.set 0 0 (mat.get 2 2)
  let mat := mat.set 2 0 (std.sin _angle)
  let mat := mat.set 0 2 (-mat.get 2 0)
  mat

/-- The function `rotation_matrix_z`. -/
def rotation_matrix_z (std : cmath) (_angle : ℚ) : matrix 4 4 :=
  let mat := matrix.identity 4
  let mat := mat.set 1 1 (std.cos _angle)
  let mat := mat.set 0 0 (mat.get 1 1)
  let mat := mat.set 0 1 (std.sin _angle)
  let mat := mat.set 1 0 (-mat.get 0 1)
  mat

/-- The function `rotation_matrix`: the product of the three axis rotations, which
`operator*` associates to the left. -/
def rotation_matrix (std : cmath) (_euler_angles : vector3) : matrix 4 4 :=
  ((rotation_matrix_x std _euler_angles.x_).mul (rotation_matrix_y std _euler_angles.y_)).mul
    (rotation_matrix_z std _euler_angles.z_)

/-- The function `scale_matrix`, built on a zero matrix. -/
def scale_matrix (_scale : vector3) : matrix 4 4 :=
  let scaleMatrix : matrix 4 4 := matrix.zero
  let scaleMatrix := scaleMatrix.set 0 0 _scale.x_
  let scaleMatrix := scaleMatrix.set 1 1 _scale.y_
  let scaleMatrix := scaleMatrix.set 2 2 _scale.z_
  let scaleMatrix := scaleMatrix.set 3 3 1
  scaleMatrix

/-- The function `model_matrix`:
`translation_matrix(_translation)*rotation_matrix(_euler_angles)*scale_matrix(_scale)`. -/
def model_matrix (std : cmath) (_translation _euler_angles _scale : vector3) : matrix 4 4 :=
  ((translation_matrix _translation).mul (rotation_matrix std _euler_angles)).mul
    (scale_matrix _scale)

/-- The function `view_matrix`, built on a zero matrix. -/
def view_matrix (_forward _up _position : vector3) : matrix 4 4 :=
  let right := _forward.cross _up
  let mat : matrix 4 4 := matrix.zero
  let mat := mat.set 3 3 1
  let mat := mat.set 0 0 right.x_
  let mat := mat.set 0 1 _up.x_
  let mat := mat.set 0 2 (-_forward.x_)
  let mat := mat.set 1 0 right.y_
  let mat := mat.set 1 1 _up.y_
  let mat := mat.set 1 2 (-_forward.y_)
  let mat := mat.set 2 0 right.z_
  let mat := mat.set 2 1 _up.z_
  let mat := mat.set 2 2 (-_forward.z_)
  let mat := mat.set 3 0 _position.x_
  let mat := mat.set 3 1 _position.y_
  let mat := mat.set 3 2 _position.z_
  mat

/-- The function `perspective_matrix`, built on `matrix4x4::identity()`. -/
def perspective_matrix (std : cmath) (_aspect_ratio _fov _near_plane _far_plane : ℚ) :
    matrix 4 4 :=
  let mat := matrix.identity 4
  let b := 1 / std.tan (1 / 2 * _fov)
  let a := b / _aspect_ratio
  let c := (_near_plane + _far_plane) / (_near_plane - _far_plane)
  let d := (2 * _near_plane * _far_plane) / (_near_plane - _far_plane)
  let mat := mat.set 0 0 a
  let mat := mat.set 1 1 b
  let mat := mat.set 2 2 c
  let mat := mat.set 2 3 (-1)
  let mat := mat.set 3 2 d
  mat

/-- The function `orthographic_matrix`, the overload with the six bounds of the box. -/
def orthographic_matrix (_left _right _top _bottom _near_plane _far_plane : ℚ) : matrix 4 4 :=
  let mat := matrix.identity 4
  let mat := mat.set 0 0 (2 / (_right - _left))
  let mat := mat.set 1 1 (2 / (_top - _bottom))
  let mat := mat.set 2 2 (2 / (_near_plane - _far_plane))
  let mat := mat.set 3 0 ((_right + _left) / (_left - _right))
  let mat := mat.set 3 1 ((_top + _bottom) / (_bottom - _top))
  let mat := mat.set 3 2 ((_far_plane + _near_plane) / (_near_plane - _far_plane))
  let mat := mat.set 3 3 1
  mat

/-- The function `orthographic_matrix`, the overload with an aspect ratio and a size. -/
def orthographic_matrix_aspect (_aspect_ratio _ortho_size _near_plane _far_plane : ℚ) :
    matrix 4 4 :=
  let mat := matrix.identity 4
  let top := _ortho_size * (1 / 2)
  let bottom := -top
  let right := top * _aspect_ratio
  let left := bottom * _aspect_ratio
  let mat := mat.set 0 0 (2 / (right - left))
  let mat := mat.set 1 1 (2 / (top - bottom))
  let mat := mat.set 2 2 (2 / (_far_plane - _near_plane))
  mat

end matrix_util

/-! ### The writes of `minor_matrix` -/

namespace matrix_util

/-- The inner loop of `minor_matrix` with its assignments recorded: the loop state is the
pair of the list of the writes `mat[minor_col][minor_row] = value` made so far, each as
`(minor_col, minor_row, value)`, and the counter `minor_row`. -/
def minor_matrix_rows_writes {Size : Nat} (_matrix : matrix Size Size) (_cofactor_row : Nat)
    (major_col minor_col : Nat) : List (Nat × Nat × ℚ) × Nat :=
  loop Size (fun major_row st =>
    if major_row = _cofactor_row then st
    else (st.1 ++ [(minor_col, st.2, _matrix.get major_col major_row)], st.2 + 1)) ([], 0)

/-- The loops of `minor_matrix` with their assignments recorded: the writes
`(minor_col, minor_row, value)` in the order of the loops. The counters are read as
`size_t`, as in `minor_matrix_cols`; with the `float` counters of the source the
assignment `mat[minor_col][minor_row] = ...` is ill-formed. -/
def minor_matrix_writes {Size : Nat} (_matrix : matrix Size Size)
    (_cofactor_col _cofactor_row : Nat) : List (Nat × Nat × ℚ) :=
  (loop Size (fun major_col (st : List (Nat × Nat × ℚ) × Nat) =>
    if major_col = _cofactor_col then st
    else (st.1 ++ (minor_matrix_rows_writes _matrix _cofactor_row major_col st.2).1,
      st.2 + 1)) ([], 0)).1

/-- The destination `(minor_col, minor_row)` of a recorded write. -/
def write_cell (w : Nat × Nat × ℚ) : Nat × Nat := (w.1, w.2.1)

/-- The effect of a recorded write on the local `mat`. -/
def apply_write {Columns Rows : Nat} (mat : matrix Columns Rows) (w : Nat × Nat × ℚ) :
    matrix Columns Rows :=
  mat.set w.1 w.2.1 w.2.2

end matrix_util

/-! ### Definitions used to state and prove the properties -/

namespace matrix_util

/-- The counter of a loop that skips the iteration `deleted`, after `n` iterations. -/
def skip_count (deleted n : Nat) : Nat := if n ≤ deleted then n else n - 1

/-- The source index copied to destination index `i` by a loop that skips `deleted`. -/
def skip_index (deleted i : Nat) : Nat := if i < deleted then i else i + 1

/-- What a call of `minor_matrix` hands back once the function is given its missing
`return mat;`: the matrix that its loops build. -/
def returned_built : (n : Nat) → matrix (n + 1) (n + 1) → Nat → Nat → matrix n n :=
  fun _ m column row => minor_matrix m column row

/-- A handed-back object that the loops of `minor_matrix` did not fill: all zero. -/
def returned_zero : (n : Nat) → matrix (n + 1) (n + 1) → Nat → Nat → matrix n n :=
  fun _ _ _ _ => matrix.zero

/-- Another handed-back object that does not depend on the call: the identity. -/
def returned_identity : (n : Nat) → matrix (n + 1) (n + 1) → Nat → Nat → matrix n n :=
  fun n _ _ _ => matrix.identity n

/-- The mathematical matrix of a `matrix<Columns, Rows>`: row `r`, column `c` holds
`m[c][r]`. Its `Matrix.det` is the reference determinant. -/
def to_Matrix {Columns Rows : Nat} (m : matrix Columns Rows) :
    Matrix (Fin Rows) (Fin Columns) ℚ :=
  Matrix.of (fun r c => m.get c.val r.val)

end matrix_util

namespace maths_util

/-- Modelled from the spec: `maths_util::approx_equal`, whose header `maths_util.h` is
not among the sources; the spec describes an absolute-difference test against a fixed
epsilon. The operations above take the test as a parameter; this instance evaluates
them on concrete inputs. -/
def approx_equal (epsilon a b : ℚ) : Bool := decide (|a - b| ≤ epsilon)

end maths_util

/-- The epsilon used in the concrete evaluations. -/
def sample_epsilon : ℚ := 1 / 1000000

/-- The 3x3 matrix with columns `(1, 1, 0)`, `(1, 1, 1)`, `(0, 0, 1)`: its rows 0 and 1
are equal, so it is singular. -/
def sample_singular_3x3 : matrix 3 3 := ⟨![1, 1, 0, 1, 1, 1, 0, 0, 1]⟩

/-- The 1x1 matrix `[2]`. -/
def sample_1x1 : matrix 1 1 := ⟨![2]⟩

/-- The 2x2 matrix with columns `(1, 2)` and `(3, 4)`. -/
def sample_2x2 : matrix 2 2 := ⟨![1, 2, 3, 4]⟩

/-- The 3x3 permutation matrix with columns `(0, 1, 0)`, `(1, 0, 0)`, `(0, 0, 1)`;
its determinant is -1. -/
def sample_swap_3x3 : matrix 3 3 := ⟨![0, 1, 0, 1, 0, 0, 0, 0, 1]⟩

/-- The 3x3 shear with columns `(1, 0, 0)`, `(0, 1, 0)`, `(1, 0, 1)`; its determinant
is 1. -/
def sample_shear_3x3 : matrix 3 3 := ⟨![1, 0, 0, 0, 1, 0, 1, 0, 1]⟩

/-- A 4x4 matrix of determinant 16, with columns `(1, 2, 0, 1)`, `(0, 1, 3, 0)`,
`(2, 0, 1, 1)`, `(1, 1, 0, 2)`. -/
def sample_4x4 : matrix 4 4 := ⟨![1, 2, 0, 1, 0, 1, 3, 0, 2, 0, 1, 1, 1, 1, 0, 2]⟩

/-- The 4x4 shear with columns `(1, 0, 0, 0)`, `(0, 1, 0, 0)`, `(1, 0, 1, 0)`,
`(0, 0, 0, 1)`; its determinant is 1. -/
def sample_shear_4x4 : matrix 4 4 := ⟨![1, 0, 0, 0, 0, 1, 0, 0, 1, 0, 1, 0, 0, 0, 0, 1]⟩

/-- A singular 4x4 matrix: rows 0 and 1 are both `(1, 2, 3, 4)`. Its columns are
`(1, 1, 0, 0)`, `(2, 2, 1, 0)`, `(3, 3, 0, 1)`, `(4, 4, 0, 0)`. -/
def sample_singular_4x4 : matrix 4 4 := ⟨![1, 1, 0, 0, 2, 2, 1, 0, 3, 3, 0, 1, 4, 4, 0, 0]⟩

/-- The homogeneous origin `(0, 0, 0, 1)` as a matrix of one column and four rows. -/
def origin_column : matrix 1 4 := ⟨![0, 0, 0, 1]⟩

/-- A stand-in for `<cmath>` in concrete evaluations: the values at an angle whose cosine
is `3/5` and whose sine is `4/5`, and tangent 1. -/
def sample_cmath : cmath := ⟨fun _ => 3 / 5, fun _ => 4 / 5, fun _ => 1⟩

/-- A 3x3 matrix whose row 1 is zero: columns `(1, 0, 2)`, `(3, 0, 4)`, `(5, 0, 6)`. -/
def sample_zero_row_3x3 : matrix 3 3 := ⟨![1, 0, 2, 3, 0, 4, 5, 0, 6]⟩

/-- A matrix of 3 columns and 2 rows: columns `(1, 2)`, `(3, 4)`, `(5, 6)`. -/
def sample_3x2 : matrix 3 2 := ⟨![1, 2, 3, 4, 5, 6]⟩

/-- A matrix of 2 columns and 3 rows: columns `(1, 0, 2)`, `(0, 1, 3)`. -/
def sample_2x3 : matrix 2 3 := ⟨![1, 0, 2, 0, 1, 3]⟩

/-- The vector `(1, 0, 0)`, a forward direction. -/
def sample_forward : vector3 := ⟨1, 0, 0⟩

/-- The vector `(0, 1, 0)`, an up direction. -/
def sample_up : vector3 := ⟨0, 1, 0⟩

/-- The vector `(5, 6, 7)`, a position. -/
def sample_position : vector3 := ⟨5, 6, 7⟩

/-- The homogeneous point `(0, 1, 0)` as a matrix of one column and four rows. -/
def y_axis_column : matrix 1 4 := ⟨![0, 1, 0, 1]⟩

/-- A stand-in for `<cmath>` at the angle 0: cosine 1, sine 0, tangent 0. -/
def sample_cmath_zero : cmath := ⟨fun _ => 1, fun _ => 0, fun _ => 0⟩

/-- A stand-in for `<cmath>` at the angle pi: cosine -1, sine 0, tangent 0. -/
def sample_cmath_pi : cmath := ⟨fun _ => -1, fun _ => 0, fun _ => 0⟩

end mkr

/-! ## Loops -/

namespace mkr

@[simp] theorem loop_zero {σ : Type} (body : Nat → σ → σ) (init : σ) :
    loop 0 body init = init := rfl

@[simp] theorem loop_succ {σ : Type} (n : Nat) (body : Nat → σ → σ) (init : σ) :
    loop (n + 1) body init = body n (loop n body init) := rfl

/-- Loop invariants: a property that holds before the loop and that every iteration
carries from `i` to `i + 1` holds when the loop ends. -/
theorem loop_invariant {σ : Type} (P : Nat → σ → Prop) (n : Nat) (body : Nat → σ → σ)
    (init : σ) (h0 : P 0 init) (hs : ∀ i, i < n → ∀ s, P i s → P (i + 1) (body i s)) :
    P n (loop n body init) := by
  induction n with
  | zero => exact h0
  | succ k ih =>
    rw [loop_succ]
    exact hs k (Nat.lt_succ_self k) _
      (ih (fun i hi s hP => hs i (Nat.lt_succ_of_lt hi) s hP))

namespace matrix

variable {Columns Rows : Nat}

/-! ## Storage: flat indices, reads and writes -/

theorem flat_lt {c r : Nat} (hc : c < Columns) (hr : r < Rows) :
    c * Rows + r < Columns * Rows := by
  calc c * Rows + r < c * Rows + Rows := Nat.add_lt_add_left hr _
    _ = (c + 1) * Rows := (Nat.succ_mul c Rows).symm
    _ ≤ Columns * Rows := Nat.mul_le_mul_right Rows hc

theorem flat_inj {c r c' r' : Nat} (hr : r < Rows) (hr' : r' < Rows) :
    c * Rows + r = c' * Rows + r' ↔ c = c' ∧ r = r' := by
  constructor
  · intro h
    have hpos : 0 < Rows := Nat.lt_of_le_of_lt (Nat.zero_le r) hr
    have h1 : (c * Rows + r) / Rows = c := by
      rw [Nat.mul_comm, Nat.mul_add_div hpos, Nat.div_eq_of_lt hr, Nat.add_zero]
    have h2 : (c' * Rows + r') / Rows = c' := by
      rw [Nat.mul_comm, Nat.mul_add_div hpos, Nat.div_eq_of_lt hr', Nat.add_zero]
    have hc : c = c' := by rw [← h1, ← h2, h]
    subst hc
    exact ⟨rfl, Nat.add_left_cancel h⟩
  · rintro ⟨rfl, rfl⟩
    rfl

theorem ext_values {a b : matrix Columns Rows} (h : a.values_ = b.values_) : a = b := by
  cases a; cases b; cases h; rfl

theorem ext_read {a b : matrix Columns Rows}
    (h : ∀ i, i < Columns * Rows → a.read i = b.read i) : a = b := by
  apply ext_values
  funext i
  have := h i.val i.isLt
  simpa [read, i.isLt] using this

theorem read_of_ge (m : matrix Columns Rows) {i : Nat} (h : Columns * Rows ≤ i) :
    m.read i = 0 := by
  simp [read, Nat.not_lt.mpr h]

theorem read_zero (i : Nat) : (zero : matrix Columns Rows).read i = 0 := by
  unfold read zero
  split <;> rfl

theorem read_write (m : matrix Columns Rows) (i j : Nat) (v : ℚ) :
    (m.write i v).read j = if j = i ∧ j < Columns * Rows then v else m.read j := by
  unfold read write
  by_cases hj : j < Columns * Rows
  · by_cases hji : j = i
    · subst hji; simp [hj]
    · simp [hj, hji]
  · simp [hj]

theorem get_zero (c r : Nat) : (zero : matrix Columns Rows).get c r = 0 :=
  read_zero _

theorem get_set (m : matrix Columns Rows) {c r c' r' : Nat} (v : ℚ)
    (hc : c < Columns) (hr : r < Rows) (hr' : r' < Rows) :
    (m.set c r v).get c' r' = if c' = c ∧ r' = r then v else m.get c' r' := by
  unfold get set
  rw [read_write]
  by_cases h : c' = c ∧ r' = r
  · obtain ⟨rfl, rfl⟩ := h
    simp [flat_lt hc hr]
  · have : ¬ (c' * Rows + r' = c * Rows + r) := fun e => h ((flat_inj hr' hr).mp e)
    simp [h, this]

theorem ext_get {a b : matrix Columns Rows}
    (h : ∀ c r, c < Columns → r < Rows → a.get c r = b.get c r) : a = b := by
  apply ext_read
  intro i hi
  have hpos : 0 < Rows := by
    rcases Nat.eq_zero_or_pos Rows with h0 | h0
    · rw [h0, Nat.mul_zero] at hi; exact absurd hi (Nat.not_lt_zero _)
    · exact h0
  have hc : i / Rows < Columns := Nat.div_lt_of_lt_mul (by rwa [Nat.mul_comm] at hi)
  have hr : i % Rows < Rows := Nat.mod_lt _ hpos
  have := h (i / Rows) (i % Rows) hc hr
  unfold get at this
  rwa [Nat.mul_comm, Nat.div_add_mod] at this

end matrix
end mkr

/-! ## The matrix operations, entry by entry -/

namespace mkr
namespace matrix

variable {Columns Rows : Nat}

theorem get_identity (Size : Nat) {c r : Nat} (hc : c < Size) (hr : r < Size) :
    (identity Size).get c r = if c = r then 1 else 0 := by
  have key : ∀ c r, c < Size → r < Size →
      (identity Size).get c r = if c = r ∧ c < Size then 1 else 0 := by
    unfold identity
    refine loop_invariant
      (fun k (s : matrix Size Size) => ∀ c r, c < Size → r < Size →
        s.get c r = if c = r ∧ c < k then 1 else 0) Size _ _ ?_ ?_
    · intro c r _ _
      simp [get_zero]
    · intro i hi s ih c r hc hr
      rw [get_set s 1 hi hi hr, ih c r hc hr]
      by_cases hcr : c = r
      · subst hcr
        by_cases hci : c = i
        · subst hci; simp
        · have : c < i + 1 ↔ c < i := by omega
          simp [hci, this]
      · simp [hcr]
        intro h1 h2
        exact absurd (h1.trans h2.symm) hcr
  rw [key c r hc hr]
  simp [hc]

theorem read_scalar_mul (s : ℚ) (m : matrix Columns Rows) (i : Nat) :
    (scalar_mul s m).read i = s * m.read i := by
  have key : ∀ j, (scalar_mul s m).read j =
      if j < Columns * Rows ∧ j < Columns * Rows then s * m.read j else 0 := by
    unfold scalar_mul
    refine loop_invariant
      (fun k (res : matrix Columns Rows) => ∀ j,
        res.read j = if j < k ∧ j < Columns * Rows then s * m.read j else 0)
      (Columns * Rows) _ _ ?_ ?_
    · intro j
      simp [read_zero]
    · intro k _ res ih j
      rw [read_write, ih j]
      by_cases hjk : j = k
      · subst hjk
        by_cases hj : j < Columns * Rows <;> simp [hj]
      · have : j < k + 1 ↔ j < k := by omega
        simp [hjk, this]
  rw [key i]
  by_cases hi : i < Columns * Rows
  · simp [hi]
  · simp [hi, read_of_ge m (Nat.le_of_not_lt hi)]

theorem read_mul_scalar (m : matrix Columns Rows) (s : ℚ) (i : Nat) :
    (mul_scalar m s).read i = m.read i * s := by
  have key : ∀ j, (mul_scalar m s).read j =
      if j < Columns * Rows ∧ j < Columns * Rows then m.read j * s else 0 := by
    unfold mul_scalar
    refine loop_invariant
      (fun k (res : matrix Columns Rows) => ∀ j,
        res.read j = if j < k ∧ j < Columns * Rows then m.read j * s else 0)
      (Columns * Rows) _ _ ?_ ?_
    · intro j
      simp [read_zero]
    · intro k _ res ih j
      rw [read_write, ih j]
      by_cases hjk : j = k
      · subst hjk
        by_cases hj : j < Columns * Rows <;> simp [hj]
      · have : j < k + 1 ↔ j < k := by omega
        simp [hjk, this]
  rw [key i]
  by_cases hi : i < Columns * Rows
  · simp [hi]
  · simp [hi, read_of_ge m (Nat.le_of_not_lt hi)]

theorem get_scalar_mul (s : ℚ) (m : matrix Columns Rows) (c r : Nat) :
    (scalar_mul s m).get c r = s * m.get c r :=
  read_scalar_mul s m _

/-- The inner loop of `transposed`, for the source column `i`. -/
theorem get_transposed_rows (m : matrix Columns Rows) (result : matrix Rows Columns)
    {i : Nat} (hi : i < Columns) (n : Nat) (hn : n ≤ Rows) {a b : Nat} (hb : b < Columns) :
    (loop n (fun j result => result.set j i (m.get i j)) result).get a b
      = if b = i ∧ a < n then m.get i a else result.get a b := by
  refine loop_invariant
    (fun k (s : matrix Rows Columns) =>
      s.get a b = if b = i ∧ a < k then m.get i a else result.get a b) n _ _ ?_ ?_
  · simp
  · intro j hj s ih
    rw [get_set s _ (Nat.lt_of_lt_of_le hj hn) hi hb, ih]
    by_cases haj : a = j
    · subst haj
      by_cases hbi : b = i <;> simp [hbi]
    · have : a < j + 1 ↔ a < j := by omega
      simp [haj, this]

theorem get_transposed (m : matrix Columns Rows) {i j : Nat} (hi : i < Columns)
    (hj : j < Rows) : (transposed m).get j i = m.get i j := by
  have key : ∀ a b, a < Rows → b < Columns →
      (transposed m).get a b = if b < Columns then m.get b a else 0 := by
    unfold transposed
    refine loop_invariant
      (fun k (s : matrix Rows Columns) => ∀ a b, a < Rows → b < Columns →
        s.get a b = if b < k then m.get b a else 0) Columns _ _ ?_ ?_
    · intro a b _ _
      simp [get_zero]
    · intro k hk s ih a b ha hb
      rw [get_transposed_rows m s hk Rows (Nat.le_refl _) hb, ih a b ha hb]
      by_cases hbk : b = k
      · subst hbk; simp [ha]
      · have : b < k + 1 ↔ b < k := by omega
        simp [hbk, this]
  rw [key j i hj hi]
  simp [hi]

/-- The innermost loop of the matrix product, for the destination cell `(i, j)`. -/
theorem get_mul_inner {RHSColumns : Nat} (lhs : matrix Columns Rows)
    (_rhs : matrix RHSColumns Columns) (result : matrix RHSColumns Rows) {i j : Nat}
    (hi : i < RHSColumns) (hj : j < Rows) (n : Nat) {a b : Nat} (hb : b < Rows) :
    (loop n (fun k result =>
        result.set i j (result.get i j + lhs.get k j * _rhs.get i k)) result).get a b
      = if a = i ∧ b = j
        then result.get i j + (Finset.range n).sum (fun k => lhs.get k j * _rhs.get i k)
        else result.get a b := by
  induction n with
  | zero =>
    by_cases h : a = i ∧ b = j
    · obtain ⟨rfl, rfl⟩ := h; simp
    · simp [h]
  | succ n ih =>
    rw [loop_succ, get_set _ _ hi hj hb]
    by_cases h : a = i ∧ b = j
    · obtain ⟨rfl, rfl⟩ := h
      simp only [and_self, if_true] at ih ⊢
      rw [ih, Finset.sum_range_succ, add_assoc]
    · rw [if_neg h, ih, if_neg h, if_neg h]

/-- The middle loop of the matrix product, for the destination column `i`. -/
theorem get_mul_rows {RHSColumns : Nat} (lhs : matrix Columns Rows)
    (_rhs : matrix RHSColumns Columns) (result : matrix RHSColumns Rows) {i : Nat}
    (hi : i < RHSColumns) (n : Nat) (hn : n ≤ Rows) {a b : Nat} (hb : b < Rows) :
    (loop n (fun j result =>
        loop Columns (fun k result =>
          result.set i j (result.get i j + lhs.get k j * _rhs.get i k)) result) result).get a b
      = if a = i ∧ b < n
        then result.get a b + (Finset.range Columns).sum (fun k => lhs.get k b * _rhs.get a k)
        else result.get a b := by
  induction n with
  | zero => simp
  | succ n ih =>
    have hn' : n < Rows := hn
    rw [loop_succ, get_mul_inner lhs _rhs _ hi hn' Columns hb]
    by_cases hai : a = i
    · subst hai
      by_cases hbn : b = n
      · subst hbn
        have h1 := ih (Nat.le_of_lt hn')
        simp only [lt_self_iff_false, and_false, if_false] at h1
        simp [h1]
      · have : b < n + 1 ↔ b < n := by omega
        rw [if_neg (by simp [hbn]), ih (Nat.le_of_lt hn')]
        simp [this]
    · rw [if_neg (by simp [hai]), ih (Nat.le_of_lt hn')]
      simp [hai]

/-- Entry `(i, j)` of a product: the sum over the shared dimension. -/
theorem get_mul {RHSColumns : Nat} (lhs : matrix Columns Rows)
    (_rhs : matrix RHSColumns Columns) {i j : Nat} (hi : i < RHSColumns) (hj : j < Rows) :
    (mul lhs _rhs).get i j
      = (Finset.range Columns).sum (fun k => lhs.get k j * _rhs.get i k) := by
  have key : ∀ n, n ≤ RHSColumns → ∀ a b, b < Rows →
      (loop n (fun i result =>
        loop Rows (fun j result =>
          loop Columns (fun k result =>
            result.set i j (result.get i j + lhs.get k j * _rhs.get i k)) result) result)
        (zero : matrix RHSColumns Rows)).get a b
        = if a < n then (Finset.range Columns).sum (fun k => lhs.get k b * _rhs.get a k)
          else 0 := by
    intro n
    induction n with
    | zero => intro _ a b _; simp [get_zero]
    | succ n ih =>
      intro hn a b hb
      have hn' : n < RHSColumns := hn
      rw [loop_succ, get_mul_rows lhs _rhs _ hn' Rows (Nat.le_refl _) hb,
        ih (Nat.le_of_lt hn') a b hb]
      by_cases han : a = n
      · subst han; simp [hb]
      · have : a < n + 1 ↔ a < n := by omega
        simp [han, this]
  unfold mul
  rw [key RHSColumns (Nat.le_refl _) i j hj]
  simp [hi]

end matrix
end mkr

/-! ## `minor_matrix` -/

namespace mkr
namespace matrix_util

theorem skip_count_succ_of_lt {deleted k : Nat} (h : k < deleted) :
    skip_count deleted (k + 1) = k + 1 ∧ skip_count deleted k = k := by
  unfold skip_count
  constructor <;> split <;> omega

theorem skip_count_succ_of_gt {deleted k : Nat} (h : deleted < k) :
    skip_count deleted (k + 1) = k ∧ skip_count deleted k + 1 = k := by
  unfold skip_count
  constructor <;> split <;> omega

theorem skip_count_succ_self (deleted : Nat) :
    skip_count deleted (deleted + 1) = skip_count deleted deleted := by
  unfold skip_count
  split <;> split <;> omega

theorem skip_count_lt {Size deleted k : Nat} (hd : deleted < Size) (hk : k < Size)
    (hne : k ≠ deleted) : skip_count deleted k < Size - 1 := by
  unfold skip_count
  split <;> omega

theorem skip_count_size {Size deleted : Nat} (hd : deleted < Size) :
    skip_count deleted Size = Size - 1 := by
  unfold skip_count
  split <;> omega

/-- The invariant of a skipping loop at a step that is not skipped: the destination
indices below the new counter are those below the old one and the old counter itself,
which receives the source index `k`. -/
theorem skip_step {deleted k : Nat} (hne : k ≠ deleted) (b : Nat) :
    (b < skip_count deleted (k + 1) ↔ b = skip_count deleted k ∨ b < skip_count deleted k) ∧
    skip_index deleted (skip_count deleted k) = k ∧
    skip_count deleted k + 1 = skip_count deleted (k + 1) := by
  unfold skip_count skip_index
  refine ⟨?_, ?_, ?_⟩
  · split <;> split <;> omega
  · split <;> split <;> omega
  · split <;> split <;> omega

/-- The inner loop of `minor_matrix` after `n` iterations: the counter `minor_row` and
the cells of `mat`. -/
theorem minor_matrix_rows_loop {Size : Nat} (_matrix : matrix Size Size)
    {_cofactor_row : Nat} (hrow : _cofactor_row < Size) (major_col : Nat)
    {minor_col : Nat} (hcol : minor_col < Size - 1) (mat : matrix (Size - 1) (Size - 1))
    (n : Nat) (hn : n ≤ Size) :
    (loop n (fun major_row (st : matrix (Size - 1) (Size - 1) × Nat) =>
        if major_row = _cofactor_row then st
        else (st.1.set minor_col st.2 (_matrix.get major_col major_row), st.2 + 1))
        (mat, 0)).2 = skip_count _cofactor_row n ∧
    ∀ a b, b < Size - 1 →
      (loop n (fun major_row (st : matrix (Size - 1) (Size - 1) × Nat) =>
        if major_row = _cofactor_row then st
        else (st.1.set minor_col st.2 (_matrix.get major_col major_row), st.2 + 1))
        (mat, 0)).1.get a b =
        if a = minor_col ∧ b < skip_count _cofactor_row n
        then _matrix.get major_col (skip_index _cofactor_row b)
        else mat.get a b := by
  refine loop_invariant
    (fun (k : Nat) (st : matrix (Size - 1) (Size - 1) × Nat) =>
      st.2 = skip_count _cofactor_row k ∧
      ∀ a b, b < Size - 1 → st.1.get a b =
        if a = minor_col ∧ b < skip_count _cofactor_row k
        then _matrix.get major_col (skip_index _cofactor_row b)
        else mat.get a b) n _ _ ?_ ?_
  · refine ⟨by simp [skip_count], ?_⟩
    intro a b _
    simp [skip_count]
  · rintro k hk ⟨m, cnt⟩ ⟨h2, h1⟩
    simp only at h2 h1
    subst h2
    have hkS : k < Size := Nat.lt_of_lt_of_le hk hn
    by_cases hkr : k = _cofactor_row
    · simp only [if_pos hkr]
      subst hkr
      refine ⟨(skip_count_succ_self k).symm, ?_⟩
      intro a b hb
      rw [h1 a b hb, skip_count_succ_self]
    · simp only [if_neg hkr]
      obtain ⟨-, hidx, hcnt⟩ := skip_step hkr 0
      refine ⟨hcnt, ?_⟩
      intro a b hb
      rw [matrix.get_set _ _ hcol (skip_count_lt hrow hkS hkr) hb, h1 a b hb]
      have hb' := (skip_step hkr b).1
      by_cases ha : a = minor_col
      · subst ha
        by_cases hbk : b = skip_count _cofactor_row k
        · subst hbk
          simp [hb', hidx]
        · simp [hb', hbk]
      · simp [ha]

/-- The inner loop of `minor_matrix`, run to its end, fills column `minor_col` of `mat`
with column `major_col` of `_matrix` less the row `_cofactor_row`. -/
theorem minor_matrix_rows_get {Size : Nat} (_matrix : matrix Size Size)
    {_cofactor_row : Nat} (hrow : _cofactor_row < Size) (major_col : Nat)
    {minor_col : Nat} (hcol : minor_col < Size - 1) (mat : matrix (Size - 1) (Size - 1))
    {a b : Nat} (hb : b < Size - 1) :
    (minor_matrix_rows _matrix _cofactor_row major_col minor_col mat).1.get a b =
      if a = minor_col then _matrix.get major_col (skip_index _cofactor_row b)
      else mat.get a b := by
  obtain ⟨-, h1⟩ :=
    minor_matrix_rows_loop _matrix hrow major_col hcol mat Size (Nat.le_refl _)
  unfold minor_matrix_rows
  rw [h1 a b hb, skip_count_size hrow]
  simp [hb]

/-- The outer loop of `minor_matrix` after `n` iterations: the counter `minor_col` and
the cells of `mat`. -/
theorem minor_matrix_cols_loop {Size : Nat} (_matrix : matrix Size Size)
    {_cofactor_col _cofactor_row : Nat} (hcol : _cofactor_col < Size)
    (hrow : _cofactor_row < Size) (n : Nat) (hn : n ≤ Size) :
    (loop n (fun major_col (st : matrix (Size - 1) (Size - 1) × Nat) =>
        if major_col = _cofactor_col then st
        else ((minor_matrix_rows _matrix _cofactor_row major_col st.2 st.1).1, st.2 + 1))
        (matrix.zero, 0)).2 = skip_count _cofactor_col n ∧
    ∀ a b, b < Size - 1 →
      (loop n (fun major_col (st : matrix (Size - 1) (Size - 1) × Nat) =>
        if major_col = _cofactor_col then st
        else ((minor_matrix_rows _matrix _cofactor_row major_col st.2 st.1).1, st.2 + 1))
        (matrix.zero, 0)).1.get a b =
        if a < skip_count _cofactor_col n
        then _matrix.get (skip_index _cofactor_col a) (skip_index _cofactor_row b)
        else 0 := by
  refine loop_invariant
    (fun (k : Nat) (st : matrix (Size - 1) (Size - 1) × Nat) =>
      st.2 = skip_count _cofactor_col k ∧
      ∀ a b, b < Size - 1 → st.1.get a b =
        if a < skip_count _cofactor_col k
        then _matrix.get (skip_index _cofactor_col a) (skip_index _cofactor_row b)
        else 0) n _ _ ?_ ?_
  · refine ⟨by simp [skip_count], ?_⟩
    intro a b _
    simp [skip_count, matrix.get_zero]
  · rintro k hk ⟨m, cnt⟩ ⟨h2, h1⟩
    simp only at h2 h1
    subst h2
    have hkS : k < Size := Nat.lt_of_lt_of_le hk hn
    by_cases hkc : k = _cofactor_col
    · simp only [if_pos hkc]
      subst hkc
      refine ⟨(skip_count_succ_self k).symm, ?_⟩
      intro a b hb
      rw [h1 a b hb, skip_count_succ_self]
    · simp only [if_neg hkc]
      obtain ⟨-, hidx, hcnt⟩ := skip_step hkc 0
      refine ⟨hcnt, ?_⟩
      intro a b hb
      rw [minor_matrix_rows_get _matrix hrow k (skip_count_lt hcol hkS hkc) _ hb,
        h1 a b hb]
      have ha' := (skip_step hkc a).1
      by_cases hak : a = skip_count _cofactor_col k
      · subst hak
        simp [ha', hidx]
      · simp [ha', hak]

/-- Entry `(i, j)` of the matrix that `minor_matrix` builds: the entry of `_matrix` whose
column and row indices skip `_cofactor_col` and `_cofactor_row`. -/
theorem minor_matrix_get {Size : Nat} (_matrix : matrix Size Size)
    {_cofactor_col _cofactor_row : Nat} (hcol : _cofactor_col < Size)
    (hrow : _cofactor_row < Size) {i j : Nat} (hi : i < Size - 1) (hj : j < Size - 1) :
    (minor_matrix _matrix _cofactor_col _cofactor_row).get i j =
      _matrix.get (skip_index _cofactor_col i) (skip_index _cofactor_row j) := by
  obtain ⟨-, h1⟩ :=
    minor_matrix_cols_loop _matrix hcol hrow Size (Nat.le_refl _)
  unfold minor_matrix minor_matrix_cols
  rw [h1 i j hj, skip_count_size hcol]
  simp [hi]

end matrix_util
end mkr

/-! ## The closed-form 4x4 inverse -/

namespace mkr
namespace matrix_util

theorem get_zero_column {Columns Rows : Nat} (m : matrix Columns Rows) (i : Nat) :
    m.get 0 i = m.read i := by
  unfold matrix.get
  rw [Nat.zero_mul, Nat.zero_add]

theorem set_zero_column {Columns Rows : Nat} (m : matrix Columns Rows) (i : Nat) (v : ℚ) :
    m.set 0 i v = m.write i v := by
  unfold matrix.set
  rw [Nat.zero_mul, Nat.zero_add]

/-- The scaling loop that ends `inverse_matrix(const matrix4x4&)`, after `n` iterations. -/
theorem inverse_matrix4x4_scale_loop (mat : matrix 4 4) (d : ℚ) (n : Nat) (j : Nat) :
    (loop n (fun i (mat : matrix 4 4) => mat.set 0 i (mat.get 0 i * d)) mat).read j
      = if j < n then mat.read j * d else mat.read j := by
  induction n with
  | zero => simp
  | succ n ih =>
    rw [loop_succ, set_zero_column, get_zero_column, matrix.read_write]
    by_cases hjn : j = n
    · subst hjn
      by_cases hj : j < 4 * 4
      · rw [if_pos ⟨rfl, hj⟩, if_pos (Nat.lt_succ_self j), ih, if_neg (Nat.lt_irrefl j)]
      · rw [if_neg (fun h => hj h.2), ih, if_neg (Nat.lt_irrefl j), if_pos (Nat.lt_succ_self j),
          matrix.read_of_ge mat (Nat.le_of_not_lt hj), zero_mul]
    · have : j < n + 1 ↔ j < n := by omega
      rw [if_neg (fun h => hjn h.1), ih]
      simp only [this]

theorem inverse_matrix4x4_read (_matrix : matrix 4 4) (i : Nat) :
    (inverse_matrix4x4 _matrix).read i
      = (inverse_matrix4x4_mat _matrix).read i * (1 / inverse_matrix4x4_determinant _matrix) := by
  unfold inverse_matrix4x4
  simp only [inverse_matrix4x4_scale_loop]
  by_cases hi : i < 16
  · rw [if_pos hi]
  · rw [if_neg hi, matrix.read_of_ge _ (Nat.le_of_not_lt hi), zero_mul]

end matrix_util
end mkr

/-! ### The sixteen closed forms -/

namespace mkr
namespace matrix_util

theorem inverse_matrix4x4_mat_read_0 (_matrix : matrix 4 4) :
    (inverse_matrix4x4_mat _matrix).read 0 =
        _matrix.read 5 * _matrix.read 10 * _matrix.read 15
        - _matrix.read 5 * _matrix.read 11 * _matrix.read 14
        - _matrix.read 9 * _matrix.read 6 * _matrix.read 15
        + _matrix.read 9 * _matrix.read 7 * _matrix.read 14
        + _matrix.read 13 * _matrix.read 6 * _matrix.read 11
        - _matrix.read 13 * _matrix.read 7 * _matrix.read 10 := by
  simp [inverse_matrix4x4_mat, matrix.set, matrix.get, matrix.read_write]

theorem inverse_matrix4x4_mat_read_1 (_matrix : matrix 4 4) :
    (inverse_matrix4x4_mat _matrix).read 1 =
        -_matrix.read 1 * _matrix.read 10 * _matrix.read 15
        + _matrix.read 1 * _matrix.read 11 * _matrix.read 14
        + _matrix.read 9 * _matrix.read 2 * _matrix.read 15
        - _matrix.read 9 * _matrix.read 3 * _matrix.read 14
        - _matrix.read 13 * _matrix.read 2 * _matrix.read 11
        + _matrix.read 13 * _matrix.read 3 * _matrix.read 10 := by
  simp [inverse_matrix4x4_mat, matrix.set, matrix.get, matrix.read_write]

theorem inverse_matrix4x4_mat_read_2 (_matrix : matrix 4 4) :
    (inverse_matrix4x4_mat _matrix).read 2 =
        _matrix.read 1 * _matrix.read 6 * _matrix.read 15
        - _matrix.read 1 * _matrix.read 7 * _matrix.read 14
        - _matrix.read 5 * _matrix.read 2 * _matrix.read 15
        + _matrix.read 5 * _matrix.read 3 * _matrix.read 14
        + _matrix.read 13 * _matrix.read 2 * _matrix.read 7
        - _matrix.read 13 * _matrix.read 3 * _matrix.read 6 := by
  simp [inverse_matrix4x4_mat, matrix.set, matrix.get, matrix.read_write]

theorem inverse_matrix4x4_mat_read_3 (_matrix : matrix 4 4) :
    (inverse_matrix4x4_mat _matrix).read 3 =
        -_matrix.read 1 * _matrix.read 6 * _matrix.read 11
        + _matrix.read 1 * _matrix.read 7 * _matrix.read 10
        + _matrix.read 5 * _matrix.read 2 * _matrix.read 11
        - _matrix.read 5 * _matrix.read 3 * _matrix.read 10
        - _matrix.read 9 * _matrix.read 2 * _matrix.read 7
        + _matrix.read 9 * _matrix.read 3 * _matrix.read 6 := by
  simp [inverse_matrix4x4_mat, matrix.set, matrix.get, matrix.read_write]

theorem inverse_matrix4x4_mat_read_4 (_matrix : matrix 4 4) :
    (inverse_matrix4x4_mat _matrix).read 4 =
        -_matrix.read 4 * _matrix.read 10 * _matrix.read 15
        + _matrix.read 4 * _matrix.read 11 * _matrix.read 14
        + _matrix.read 8 * _matrix.read 6 * _matrix.read 15
        - _matrix.read 8 * _matrix.read 7 * _matrix.read 14
        - _matrix.read 12 * _matrix.read 6 * _matrix.read 11
        + _matrix.read 12 * _matrix.read 7 * _matrix.read 10 := by
  simp [inverse_matrix4x4_mat, matrix.set, matrix.get, matrix.read_write]

theorem inverse_matrix4x4_mat_read_5 (_matrix : matrix 4 4) :
    (inverse_matrix4x4_mat _matrix).read 5 =
        _matrix.read 0 * _matrix.read 10 * _matrix.read 15
        - _matrix.read 0 * _matrix.read 11 * _matrix.read 14
        - _matrix.read 8 * _matrix.read 2 * _matrix.read 15
        + _matrix.read 8 * _matrix.read 3 * _matrix.read 14
        + _matrix.read 12 * _matrix.read 2 * _matrix.read 11
        - _matrix.read 12 * _matrix.read 3 * _matrix.read 10 := by
  simp [inverse_matrix4x4_mat, matrix.set, matrix.get, matrix.read_write]

theorem inverse_matrix4x4_mat_read_6 (_matrix : matrix 4 4) :
    (inverse_matrix4x4_mat _matrix).read 6 =
        -_matrix.read 0 * _matrix.read 6 * _matrix.read 15
        + _matrix.read 0 * _matrix.read 7 * _matrix.read 14
        + _matrix.read 4 * _matrix.read 2 * _matrix.read 15
        - _matrix.read 4 * _matrix.read 3 * _matrix.read 14
        - _matrix.read 12 * _matrix.read 2 * _matrix.read 7
        + _matrix.read 12 * _matrix.read 3 * _matrix.read 6 := by
  simp [inverse_matrix4x4_mat, matrix.set, matrix.get, matrix.read_write]

theorem inverse_matrix4x4_mat_read_7 (_matrix : matrix 4 4) :
    (inverse_matrix4x4_mat _matrix).read 7 =
        _matrix.read 0 * _matrix.read 6 * _matrix.read 11
        - _matrix.read 0 * _matrix.read 7 * _matrix.read 10
        - _matrix.read 4 * _matrix.read 2 * _matrix.read 11
        + _matrix.read 4 * _matrix.read 3 * _matrix.read 10
        + _matrix.read 8 * _matrix.read 2 * _matrix.read 7
        - _matrix.read 8 * _matrix.read 3 * _matrix.read 6 := by
  simp [inverse_matrix4x4_mat, matrix.set, matrix.get, matrix.read_write]

theorem inverse_matrix4x4_mat_read_8 (_matrix : matrix 4 4) :
    (inverse_matrix4x4_mat _matrix).read 8 =
        _matrix.read 4 * _matrix.read 9 * _matrix.read 15
        - _matrix.read 4 * _matrix.read 11 * _matrix.read 13
        - _matrix.read 8 * _matrix.read 5 * _matrix.read 15
        + _matrix.read 8 * _matrix.read 7 * _matrix.read 13
        + _matrix.read 12 * _matrix.read 5 * _matrix.read 11
        - _matrix.read 12 * _matrix.read 7 * _matrix.read 9 := by
  simp [inverse_matrix4x4_mat, matrix.set, matrix.get, matrix.read_write]

theorem inverse_matrix4x4_mat_read_9 (_matrix : matrix 4 4) :
    (inverse_matrix4x4_mat _matrix).read 9 =
        -_matrix.read 0 * _matrix.read 9 * _matrix.read 15
        + _matrix.read 0 * _matrix.read 11 * _matrix.read 13
        + _matrix.read 8 * _matrix.read 1 * _matrix.read 15
        - _matrix.read 8 * _matrix.read 3 * _matrix.read 13
        - _matrix.read 12 * _matrix.read 1 * _matrix.read 11
        + _matrix.read 12 * _matrix.read 3 * _matrix.read 9 := by
  simp [inverse_matrix4x4_mat, matrix.set, matrix.get, matrix.read_write]

theorem inverse_matrix4x4_mat_read_10 (_matrix : matrix 4 4) :
    (inverse_matrix4x4_mat _matrix).read 10 =
        _matrix.read 0 * _matrix.read 5 * _matrix.read 15
        - _matrix.read 0 * _matrix.read 7 * _matrix.read 13
        - _matrix.read 4 * _matrix.read 1 * _matrix.read 15
        + _matrix.read 4 * _matrix.read 3 * _matrix.read 13
        + _matrix.read 12 * _matrix.read 1 * _matrix.read 7
        - _matrix.read 12 * _matrix.read 3 * _matrix.read 5 := by
  simp [inverse_matrix4x4_mat, matrix.set, matrix.get, matrix.read_write]

theorem inverse_matrix4x4_mat_read_11 (_matrix : matrix 4 4) :
    (inverse_matrix4x4_mat _matrix).read 11 =
        -_matrix.read 0 * _matrix.read 5 * _matrix.read 11
        + _matrix.read 0 * _matrix.read 7 * _matrix.read 9
        + _matrix.read 4 * _matrix.read 1 * _matrix.read 11
        - _matrix.read 4 * _matrix.read 3 * _matrix.read 9
        - _matrix.read 8 * _matrix.read 1 * _matrix.read 7
        + _matrix.read 8 * _matrix.read 3 * _matrix.read 5 := by
  simp [inverse_matrix4x4_mat, matrix.set, matrix.get, matrix.read_write]

theorem inverse_matrix4x4_mat_read_12 (_matrix : matrix 4 4) :
    (inverse_matrix4x4_mat _matrix).read 12 =
        -_matrix.read 4 * _matrix.read 9 * _matrix.read 14
        + _matrix.read 4 * _matrix.read 10 * _matrix.read 13
        + _matrix.read 8 * _matrix.read 5 * _matrix.read 14
        - _matrix.read 8 * _matrix.read 6 * _matrix.read 13
        - _matrix.read 12 * _matrix.read 5 * _matrix.read 10
        + _matrix.read 12 * _matrix.read 6 * _matrix.read 9 := by
  simp [inverse_matrix4x4_mat, matrix.set, matrix.get, matrix.read_write]

theorem inverse_matrix4x4_mat_read_13 (_matrix : matrix 4 4) :
    (inverse_matrix4x4_mat _matrix).read 13 =
        _matrix.read 0 * _matrix.read 9 * _matrix.read 14
        - _matrix.read 0 * _matrix.read 10 * _matrix.read 13
        - _matrix.read 8 * _matrix.read 1 * _matrix.read 14
        + _matrix.read 8 * _matrix.read 2 * _matrix.read 13
        + _matrix.read 12 * _matrix.read 1 * _matrix.read 10
        - _matrix.read 12 * _matrix.read 2 * _matrix.read 9 := by
  simp [inverse_matrix4x4_mat, matrix.set, matrix.get, matrix.read_write]

theorem inverse_matrix4x4_mat_read_14 (_matrix : matrix 4 4) :
    (inverse_matrix4x4_mat _matrix).read 14 =
        -_matrix.read 0 * _matrix.read 5 * _matrix.read 14
        + _matrix.read 0 * _matrix.read 6 * _matrix.read 13
        + _matrix.read 4 * _matrix.read 1 * _matrix.read 14
        - _matrix.read 4 * _matrix.read 2 * _matrix.read 13
        - _matrix.read 12 * _matrix.read 1 * _matrix.read 6
        + _matrix.read 12 * _matrix.read 2 * _matrix.read 5 := by
  simp [inverse_matrix4x4_mat, matrix.set, matrix.get, matrix.read_write]

theorem inverse_matrix4x4_mat_read_15 (_matrix : matrix 4 4) :
    (inverse_matrix4x4_mat _matrix).read 15 =
        _matrix.read 0 * _matrix.read 5 * _matrix.read 10
        - _matrix.read 0 * _matrix.read 6 * _matrix.read 9
        - _matrix.read 4 * _matrix.read 1 * _matrix.read 10
        + _matrix.read 4 * _matrix.read 2 * _matrix.read 9
        + _matrix.read 8 * _matrix.read 1 * _matrix.read 6
        - _matrix.read 8 * _matrix.read 2 * _matrix.read 5 := by
  simp [inverse_matrix4x4_mat, matrix.set, matrix.get, matrix.read_write]

theorem inverse_matrix4x4_determinant_eq (_matrix : matrix 4 4) :
    inverse_matrix4x4_determinant _matrix =
      _matrix.read 0 * (inverse_matrix4x4_mat _matrix).read 0
        + _matrix.read 1 * (inverse_matrix4x4_mat _matrix).read 4
        + _matrix.read 2 * (inverse_matrix4x4_mat _matrix).read 8
        + _matrix.read 3 * (inverse_matrix4x4_mat _matrix).read 12 := by
  simp only [inverse_matrix4x4_determinant, get_zero_column]

/-- The unscaled `mat` of the 4x4 inverse is a right adjugate: the product of `_matrix`
with it is the local `determinant` on the diagonal and 0 elsewhere. -/
theorem inverse_matrix4x4_mat_right (_matrix : matrix 4 4) {c r : Nat} (hc : c < 4)
    (hr : r < 4) :
    (Finset.range 4).sum (fun k =>
        _matrix.read (k * 4 + r) * (inverse_matrix4x4_mat _matrix).read (c * 4 + k))
      = if c = r then inverse_matrix4x4_determinant _matrix else 0 := by
  rw [inverse_matrix4x4_determinant_eq]
  interval_cases c <;> interval_cases r <;>
    simp only [Finset.sum_range_succ, Finset.sum_range_zero, Nat.reduceMul, Nat.reduceAdd,
      inverse_matrix4x4_mat_read_0, inverse_matrix4x4_mat_read_1, inverse_matrix4x4_mat_read_2,
      inverse_matrix4x4_mat_read_3, inverse_matrix4x4_mat_read_4, inverse_matrix4x4_mat_read_5,
      inverse_matrix4x4_mat_read_6, inverse_matrix4x4_mat_read_7, inverse_matrix4x4_mat_read_8,
      inverse_matrix4x4_mat_read_9, inverse_matrix4x4_mat_read_10,
      inverse_matrix4x4_mat_read_11, inverse_matrix4x4_mat_read_12,
      inverse_matrix4x4_mat_read_13, inverse_matrix4x4_mat_read_14,
      inverse_matrix4x4_mat_read_15,
      Nat.reduceEqDiff, if_true, if_false, OfNat.ofNat_ne_zero, OfNat.zero_ne_ofNat,
      Nat.succ_ne_self, zero_add] <;>
    ring

/-- The unscaled `mat` of the 4x4 inverse is a left adjugate. -/
theorem inverse_matrix4x4_mat_left (_matrix : matrix 4 4) {c r : Nat} (hc : c < 4)
    (hr : r < 4) :
    (Finset.range 4).sum (fun k =>
        (inverse_matrix4x4_mat _matrix).read (k * 4 + r) * _matrix.read (c * 4 + k))
      = if c = r then inverse_matrix4x4_determinant _matrix else 0 := by
  rw [inverse_matrix4x4_determinant_eq]
  interval_cases c <;> interval_cases r <;>
    simp only [Finset.sum_range_succ, Finset.sum_range_zero, Nat.reduceMul, Nat.reduceAdd,
      inverse_matrix4x4_mat_read_0, inverse_matrix4x4_mat_read_1, inverse_matrix4x4_mat_read_2,
      inverse_matrix4x4_mat_read_3, inverse_matrix4x4_mat_read_4, inverse_matrix4x4_mat_read_5,
      inverse_matrix4x4_mat_read_6, inverse_matrix4x4_mat_read_7, inverse_matrix4x4_mat_read_8,
      inverse_matrix4x4_mat_read_9, inverse_matrix4x4_mat_read_10,
      inverse_matrix4x4_mat_read_11, inverse_matrix4x4_mat_read_12,
      inverse_matrix4x4_mat_read_13, inverse_matrix4x4_mat_read_14,
      inverse_matrix4x4_mat_read_15,
      Nat.reduceEqDiff, if_true, if_false, OfNat.ofNat_ne_zero, OfNat.zero_ne_ofNat,
      Nat.succ_ne_self, zero_add] <;>
    ring

end matrix_util
end mkr

/-! ## Sign factors, `determinant`, `cofactor_matrix` -/

namespace mkr
namespace matrix_util

/-- The sign factor of `determinant<Size>`, in `size_t`: 1 on even columns and
`2 ^ 64 - 1`, not -1, on odd columns. -/
theorem determinant_sign_eq (column : Nat) :
    determinant_sign column = if column % 2 = 0 then 1 else 2 ^ 64 - 1 := by
  unfold determinant_sign minus_two_as_size_t size_t_bits
  rw [Nat.and_one_is_mod]
  rcases Nat.mod_two_eq_zero_or_one column with h | h <;> rw [h] <;> decide

/-- A summing loop is a finite sum. -/
theorem loop_sum (n : Nat) (f : Nat → ℚ) :
    loop n (fun i acc => acc + f i) 0 = (Finset.range n).sum f := by
  induction n with
  | zero => rfl
  | succ n ih => rw [loop_succ, ih, Finset.sum_range_succ]

theorem determinant_one (_matrix : matrix 1 1) :
    determinant 1 _matrix = _matrix.get 0 0 := rfl

theorem determinant_two (_matrix : matrix 2 2) :
    determinant 2 _matrix
      = _matrix.get 0 0 * _matrix.get 1 1 - _matrix.get 1 0 * _matrix.get 0 1 := rfl

/-- The template `determinant<Size>` at `Size = n + 3`, as a sum over the columns. -/
theorem determinant_expand (n : Nat) (_matrix : matrix (n + 3) (n + 3)) :
    determinant (n + 3) _matrix
      = (Finset.range (n + 3)).sum (fun column =>
          determinant (n + 2) (minor_matrix _matrix column 0)
            * (_matrix.get column 0 * (determinant_sign column : ℚ))) := by
  rw [← loop_sum]
  rfl

theorem determinant_returned_one
    (_returned : (n : Nat) → matrix (n + 1) (n + 1) → Nat → Nat → matrix n n)
    (_matrix : matrix 1 1) :
    determinant_returned _returned 1 _matrix = _matrix.get 0 0 := rfl

theorem determinant_returned_two
    (_returned : (n : Nat) → matrix (n + 1) (n + 1) → Nat → Nat → matrix n n)
    (_matrix : matrix 2 2) :
    determinant_returned _returned 2 _matrix
      = _matrix.get 0 0 * _matrix.get 1 1 - _matrix.get 1 0 * _matrix.get 0 1 := rfl

/-- The template `determinant<Size>` at `Size = n + 3`, as a sum over the columns, in
terms of the objects that the calls of `minor_matrix` hand back. -/
theorem determinant_returned_expand
    (_returned : (n : Nat) → matrix (n + 1) (n + 1) → Nat → Nat → matrix n n)
    (n : Nat) (_matrix : matrix (n + 3) (n + 3)) :
    determinant_returned _returned (n + 3) _matrix
      = (Finset.range (n + 3)).sum (fun column =>
          determinant_returned _returned (n + 2) (_returned (n + 2) _matrix column 0)
            * (_matrix.get column 0 * (determinant_sign column : ℚ))) := by
  rw [← loop_sum]
  rfl

/-- With the matrix built by the loops of `minor_matrix` handed back,
`determinant_returned` is `determinant`. -/
theorem determinant_returned_built :
    ∀ (Size : Nat) (_matrix : matrix Size Size),
      determinant_returned returned_built Size _matrix = determinant Size _matrix := by
  intro Size
  induction Size using Nat.strong_induction_on with
  | _ Size ih =>
    intro _matrix
    match Size, _matrix, ih with
    | 0, _, _ => rfl
    | 1, _, _ => rfl
    | 2, _, _ => rfl
    | n + 3, _matrix, ih =>
      rw [determinant_returned_expand, determinant_expand]
      apply Finset.sum_congr rfl
      intro column _
      rw [ih (n + 2) (by omega)]
      rfl

/-- A matrix whose row 0 is zero: the result is 0 whatever the calls of `minor_matrix`
hand back. -/
theorem determinant_returned_zero_row0
    (_returned : (n : Nat) → matrix (n + 1) (n + 1) → Nat → Nat → matrix n n)
    (Size : Nat) (_matrix : matrix Size Size)
    (h : ∀ c, c < Size → _matrix.get c 0 = 0) :
    determinant_returned _returned Size _matrix = 0 := by
  match Size, _matrix, h with
  | 0, _, _ => rfl
  | 1, _matrix, h => rw [determinant_returned_one]; exact h 0 (by decide)
  | 2, _matrix, h =>
    rw [determinant_returned_two, h 0 (by decide), h 1 (by decide)]; ring
  | n + 3, _matrix, h =>
    rw [determinant_returned_expand]
    apply Finset.sum_eq_zero
    intro column hcolumn
    rw [h column (Finset.mem_range.mp hcolumn)]; ring

/-- The inner loop of `cofactor_matrix`, which fills the column `column`. -/
theorem fill_rows {Columns Rows : Nat} (f : Nat → ℚ) (mat : matrix Columns Rows)
    {column : Nat} (hc : column < Columns) (n : Nat) (hn : n ≤ Rows) {a b : Nat}
    (hb : b < Rows) :
    (loop n (fun row (mat : matrix Columns Rows) => mat.set column row (f row)) mat).get a b
      = if a = column ∧ b < n then f b else mat.get a b := by
  induction n with
  | zero => simp
  | succ n ih =>
    have hn' : n < Rows := hn
    rw [loop_succ, matrix.get_set _ _ hc hn' hb, ih (Nat.le_of_lt hn')]
    by_cases hbn : b = n
    · subst hbn
      by_cases ha : a = column <;> simp [ha]
    · have : b < n + 1 ↔ b < n := by omega
      simp [hbn, this]

/-- The two loops of `cofactor_matrix`: every cell `(column, row)` receives its value. -/
theorem fill_get {Columns Rows : Nat} (f : Nat → Nat → ℚ) {c r : Nat} (hc : c < Columns)
    (hr : r < Rows) :
    (loop Columns (fun column (mat : matrix Columns Rows) =>
        loop Rows (fun row (mat : matrix Columns Rows) =>
          mat.set column row (f column row)) mat) matrix.zero).get c r = f c r := by
  have key : ∀ n, n ≤ Columns → ∀ a b, b < Rows →
      (loop n (fun column (mat : matrix Columns Rows) =>
        loop Rows (fun row (mat : matrix Columns Rows) =>
          mat.set column row (f column row)) mat) matrix.zero).get a b
        = if a < n then f a b else 0 := by
    intro n
    induction n with
    | zero => intro _ a b _; simp [matrix.get_zero]
    | succ n ih =>
      intro hn a b hb
      have hn' : n < Columns := hn
      rw [loop_succ, fill_rows (f n) _ hn' Rows (Nat.le_refl _) hb,
        ih (Nat.le_of_lt hn') a b hb]
      by_cases han : a = n
      · subst han; simp [hb]
      · have : a < n + 1 ↔ a < n := by omega
        simp [han, this]
  rw [key Columns (Nat.le_refl _) c r hr]
  simp [hc]

/-- Entry `(c, r)` of `cofactor_matrix<Size>` at `Size = n + 2`. -/
theorem cofactor_matrix_get (n : Nat) (_matrix : matrix (n + 2) (n + 2)) {c r : Nat}
    (hc : c < n + 2) (hr : r < n + 2) :
    (cofactor_matrix (n + 2) _matrix).get c r
      = determinant (n + 1) (minor_matrix _matrix c r) * (cofactor_sign c r : ℚ) := by
  show (loop (n + 2) (fun column (mat : matrix (n + 2) (n + 2)) =>
      loop (n + 2) (fun row (mat : matrix (n + 2) (n + 2)) =>
        mat.set column row
          (determinant (n + 1) (minor_matrix _matrix column row)
            * (cofactor_sign column row : ℚ))) mat) matrix.zero).get c r = _
  exact fill_get
    (fun column row =>
      determinant (n + 1) (minor_matrix _matrix column row) * (cofactor_sign column row : ℚ))
    hc hr

theorem adjugate_matrix_get (Size : Nat) (_matrix : matrix Size Size) {c r : Nat}
    (hc : c < Size) (hr : r < Size) :
    (adjugate_matrix Size _matrix).get c r = (cofactor_matrix Size _matrix).get r c :=
  matrix.get_transposed _ hr hc

end matrix_util

namespace matrix

theorem eq_op_self {Columns Rows : Nat} (approx_equal : ℚ → ℚ → Bool)
    (hrefl : ∀ x, approx_equal x x = true) (m : matrix Columns Rows) :
    eq_op approx_equal m m = true := by
  unfold eq_op
  rw [List.all_eq_true]
  intro i _
  exact hrefl _

end matrix
end mkr

/-! ### The local determinant of the 4x4 inverse is the determinant -/

namespace mkr
namespace matrix_util

theorem succAbove_val4 : ∀ (j : Fin 4) (k : Fin 3),
    (j.succAbove k).val = if k.val < j.val then k.val else k.val + 1 := by decide

theorem inverse_matrix4x4_determinant_eq_det (_matrix : matrix 4 4) :
    inverse_matrix4x4_determinant _matrix = (to_Matrix _matrix).det := by
  rw [inverse_matrix4x4_determinant_eq, Matrix.det_succ_row_zero]
  simp only [Fin.sum_univ_four, Matrix.det_fin_three, to_Matrix, Matrix.submatrix_apply,
    Matrix.of_apply,
    inverse_matrix4x4_mat_read_0, inverse_matrix4x4_mat_read_4, inverse_matrix4x4_mat_read_8,
    inverse_matrix4x4_mat_read_12, matrix.get,
    succAbove_val4, Fin.val_succ, Fin.val_zero, Fin.val_one, Fin.val_two]
  have h3 : ((3 : Fin 4) : ℕ) = 3 := rfl
  simp only [h3]
  norm_num
  ring
end matrix_util
end mkr

/-! ## The properties -/

namespace mkr
open matrix_util

/-- C1: the closed-form `inverse_matrix(const matrix4x4&)` is a two-sided inverse. For
every 4x4 matrix `M` over exact numbers whose determinant is not 0, with `N` the matrix
the function returns, `M * N` and `N * M` are `identity()` element for element, under
the library's `operator*` and `[column][row]` indexing; so `M * N == identity()` and
`N * M == identity()` hold for the library's `operator==` with any `approx_equal` that
accepts equal values. -/
theorem inverse_matrix4x4_two_sided (_matrix : matrix 4 4)
    (hdet : (to_Matrix _matrix).det ≠ 0) :
    _matrix.mul (inverse_matrix4x4 _matrix) = matrix.identity 4 ∧
    (inverse_matrix4x4 _matrix).mul _matrix = matrix.identity 4 ∧
    ∀ approx_equal : ℚ → ℚ → Bool, (∀ x, approx_equal x x = true) →
      matrix.eq_op approx_equal (_matrix.mul (inverse_matrix4x4 _matrix))
        (matrix.identity 4) = true ∧
      matrix.eq_op approx_equal ((inverse_matrix4x4 _matrix).mul _matrix)
        (matrix.identity 4) = true := by
  have hd : inverse_matrix4x4_determinant _matrix ≠ 0 := by
    rw [inverse_matrix4x4_determinant_eq_det]; exact hdet
  have hright : _matrix.mul (inverse_matrix4x4 _matrix) = matrix.identity 4 := by
    apply matrix.ext_get
    intro c r hc hr
    rw [matrix.get_mul _ _ hc hr, matrix.get_identity 4 hc hr]
    have h := inverse_matrix4x4_mat_right _matrix hc hr
    simp only [matrix.get, inverse_matrix4x4_read, ← mul_assoc, ← Finset.sum_mul, h]
    by_cases hcr : c = r
    · simp [hcr, hd]
    · simp [hcr]
  have hleft : (inverse_matrix4x4 _matrix).mul _matrix = matrix.identity 4 := by
    apply matrix.ext_get
    intro c r hc hr
    rw [matrix.get_mul _ _ hc hr, matrix.get_identity 4 hc hr]
    have h := inverse_matrix4x4_mat_left _matrix hc hr
    have h2 : ∀ k, (inverse_matrix4x4_mat _matrix).read (k * 4 + r)
        * (1 / inverse_matrix4x4_determinant _matrix) * _matrix.read (c * 4 + k)
        = (inverse_matrix4x4_mat _matrix).read (k * 4 + r) * _matrix.read (c * 4 + k)
          * (1 / inverse_matrix4x4_determinant _matrix) := fun k => by ring
    simp only [matrix.get, inverse_matrix4x4_read, h2, ← Finset.sum_mul, h]
    by_cases hcr : c = r
    · simp [hcr, hd]
    · simp [hcr]
  refine ⟨hright, hleft, ?_⟩
  intro approx_equal hrefl
  rw [hright, hleft]
  exact ⟨matrix.eq_op_self approx_equal hrefl _, matrix.eq_op_self approx_equal hrefl _⟩

/-- The two-sided inverse property on a 4x4 matrix of determinant 16. -/
theorem inverse_matrix4x4_two_sided_witness :
    (to_Matrix sample_4x4).det ≠ 0 ∧
    (sample_4x4.mul (inverse_matrix4x4 sample_4x4) = matrix.identity 4 ∧
    (inverse_matrix4x4 sample_4x4).mul sample_4x4 = matrix.identity 4 ∧
    ∀ approx_equal : ℚ → ℚ → Bool, (∀ x, approx_equal x x = true) →
      matrix.eq_op approx_equal (sample_4x4.mul (inverse_matrix4x4 sample_4x4))
        (matrix.identity 4) = true ∧
      matrix.eq_op approx_equal ((inverse_matrix4x4 sample_4x4).mul sample_4x4)
        (matrix.identity 4) = true) :=
  have h : (to_Matrix sample_4x4).det ≠ 0 := by
    rw [← inverse_matrix4x4_determinant_eq_det]; decide!
  ⟨h, inverse_matrix4x4_two_sided sample_4x4 h⟩

/-- C2: the generic `inverse_matrix<Size>` is not a two-sided inverse at sizes 2 and 3.
On the 3x3 shear of determinant 1 and on the 2x2 matrix with columns `(1, 2)`, `(3, 4)`,
`has_inverse` is true and the result `N` is present, but `M * N` is not the identity:
the cofactor signs are computed in `size_t` without the mask `& 1`. -/
theorem inverse_matrix_generic_not_inverse :
    (has_inverse (maths_util.approx_equal sample_epsilon) 3 sample_shear_3x3 = true ∧
      ∃ N, inverse_matrix (maths_util.approx_equal sample_epsilon) 3 sample_shear_3x3 = some N ∧
        (sample_shear_3x3.mul N).get 2 0 = -18446744073709551612 ∧
        (matrix.identity 3).get 2 0 = 0 ∧
        sample_shear_3x3.mul N ≠ matrix.identity 3 ∧
        matrix.eq_op (maths_util.approx_equal sample_epsilon) (sample_shear_3x3.mul N)
          (matrix.identity 3) = false) ∧
    (has_inverse (maths_util.approx_equal sample_epsilon) 2 sample_2x2 = true ∧
      ∃ N, inverse_matrix (maths_util.approx_equal sample_epsilon) 2 sample_2x2 = some N ∧
        (sample_2x2.mul N).get 0 0 = -55340232221128654847 ∧
        (matrix.identity 2).get 0 0 = 1 ∧
        sample_2x2.mul N ≠ matrix.identity 2 ∧
        matrix.eq_op (maths_util.approx_equal sample_epsilon) (sample_2x2.mul N)
          (matrix.identity 2) = false) := by
  have h3 : has_inverse (maths_util.approx_equal sample_epsilon) 3 sample_shear_3x3 = true := by
    decide!
  have h2 : has_inverse (maths_util.approx_equal sample_epsilon) 2 sample_2x2 = true := by decide!
  refine ⟨⟨h3, matrix.scalar_mul (1 / determinant 3 sample_shear_3x3)
      (adjugate_matrix 3 sample_shear_3x3), ?_, ?_, ?_, ?_, ?_⟩,
    ⟨h2, matrix.scalar_mul (1 / determinant 2 sample_2x2)
      (adjugate_matrix 2 sample_2x2), ?_, ?_, ?_, ?_, ?_⟩⟩
  · unfold inverse_matrix
    rw [h3]
    rfl
  · decide!
  · decide!
  · decide!
  · decide!
  · unfold inverse_matrix
    rw [h2]
    rfl
  · decide!
  · decide!
  · decide!
  · decide!

/-- C3: the generic `inverse_matrix<1>` is not an inverse. On `[2]`, `has_inverse` is
true and the result is `[1]`, since `cofactor_matrix` of a 1x1 matrix returns its
argument and `(1 / 2) * 2 = 1`; `[2] * [1]` is `[2]`, not the identity `[1]`. -/
theorem inverse_matrix_1x1_not_inverse :
    has_inverse (maths_util.approx_equal sample_epsilon) 1 sample_1x1 = true ∧
    cofactor_matrix 1 sample_1x1 = sample_1x1 ∧
    ∃ N, inverse_matrix (maths_util.approx_equal sample_epsilon) 1 sample_1x1 = some N ∧
      N.get 0 0 = 1 ∧
      (sample_1x1.mul N).get 0 0 = 2 ∧
      (N.mul sample_1x1).get 0 0 = 2 ∧
      (matrix.identity 1).get 0 0 = 1 ∧
      matrix.eq_op (maths_util.approx_equal sample_epsilon) (sample_1x1.mul N)
        (matrix.identity 1) = false ∧
      matrix.eq_op (maths_util.approx_equal sample_epsilon) (N.mul sample_1x1)
        (matrix.identity 1) = false := by
  have h1 : has_inverse (maths_util.approx_equal sample_epsilon) 1 sample_1x1 = true := by decide!
  refine ⟨h1, rfl, matrix.scalar_mul (1 / determinant 1 sample_1x1)
    (adjugate_matrix 1 sample_1x1), ?_, ?_, ?_, ?_, ?_, ?_, ?_⟩
  · unfold inverse_matrix
    rw [h1]
    rfl
  · decide!
  · decide!
  · decide!
  · decide!
  · decide!
  · decide!

/-- C4: `inverse_matrix(const matrix4x4&)` has no singularity test. On the 4x4 matrix
whose rows 0 and 1 are equal, the determinant is 0, the local `determinant` is 0, and
the function returns a matrix all the same: every element of `mat` times `1 / 0`. -/
theorem inverse_matrix4x4_singular_input :
    (to_Matrix sample_singular_4x4).det = 0 ∧
    inverse_matrix4x4_determinant sample_singular_4x4 = 0 ∧
    (∀ c, c < 4 → sample_singular_4x4.get c 0 = sample_singular_4x4.get c 1) ∧
    ∀ i, (inverse_matrix4x4 sample_singular_4x4).read i
      = (inverse_matrix4x4_mat sample_singular_4x4).read i * (1 / 0) := by
  have h0 : inverse_matrix4x4_determinant sample_singular_4x4 = 0 := by decide!
  refine ⟨?_, h0, ?_, ?_⟩
  · rw [← inverse_matrix4x4_determinant_eq_det]; exact h0
  · decide
  · intro i
    rw [inverse_matrix4x4_read, h0]

/-- C5: the generic `inverse_matrix<Size>` does not fail exactly on singular input. The
3x3 matrix with columns `(1, 1, 0)`, `(1, 1, 1)`, `(0, 0, 1)` has two equal rows and the
determinant 0, but `determinant<3>` gives `2 ^ 64` for it, the sign factor of column 1
being `2 ^ 64 - 1`: `has_inverse` is true and `inverse_matrix<3>` returns a matrix. For
any `approx_equal`, the result is absent only if `approx_equal(2 ^ 64, 0)` holds. -/
theorem inverse_matrix_generic_accepts_singular :
    (to_Matrix sample_singular_3x3).det = 0 ∧
    determinant 3 sample_singular_3x3 = 18446744073709551616 ∧
    has_inverse (maths_util.approx_equal sample_epsilon) 3 sample_singular_3x3 = true ∧
    inverse_matrix (maths_util.approx_equal sample_epsilon) 3 sample_singular_3x3
      = some (matrix.scalar_mul (1 / 18446744073709551616)
          (adjugate_matrix 3 sample_singular_3x3)) ∧
    (∀ approx_equal : ℚ → ℚ → Bool,
      inverse_matrix approx_equal 3 sample_singular_3x3
        = if approx_equal 18446744073709551616 0 = true then none
          else some (matrix.scalar_mul (1 / 18446744073709551616)
            (adjugate_matrix 3 sample_singular_3x3))) := by
  have hdet : determinant 3 sample_singular_3x3 = 18446744073709551616 := by decide!
  have hall : ∀ approx_equal : ℚ → ℚ → Bool,
      inverse_matrix approx_equal 3 sample_singular_3x3
        = if approx_equal 18446744073709551616 0 = true then none
          else some (matrix.scalar_mul (1 / 18446744073709551616)
            (adjugate_matrix 3 sample_singular_3x3)) := by
    intro approx_equal
    unfold inverse_matrix has_inverse
    rw [hdet]
    cases approx_equal 18446744073709551616 0 <;> simp
  have happrox : maths_util.approx_equal sample_epsilon 18446744073709551616 0 = false := by
    decide!
  refine ⟨?_, hdet, ?_, ?_, hall⟩
  · rw [Matrix.det_fin_three]
    simp only [to_Matrix, Matrix.of_apply]
    have e : ∀ c r : Fin 3, sample_singular_3x3.get c.val r.val
        = (![1, 1, 0, 1, 1, 1, 0, 0, 1] : Fin 9 → ℚ) ⟨c.val * 3 + r.val, by omega⟩ := by
      decide!
    simp only [e]
    norm_num [Fin.val]
  · unfold has_inverse
    rw [hdet, happrox]
    rfl
  · rw [hall, happrox]
    rfl

/-- What `determinant<Size>` computes at `Size = n + 3`: the expansion along row 0 with
the factor 1 on even columns and `2 ^ 64 - 1` on odd columns. -/
theorem determinant_expand_unsigned (n : Nat) (_matrix : matrix (n + 3) (n + 3)) :
    determinant (n + 3) _matrix
      = (Finset.range (n + 3)).sum (fun column =>
          _matrix.get column 0 * (if column % 2 = 0 then 1 else 18446744073709551615)
            * determinant (n + 2) (minor_matrix _matrix column 0)) := by
  rw [determinant_expand]
  apply Finset.sum_congr rfl
  intro column _
  rw [determinant_sign_eq]
  split <;> norm_num <;> ring

/-- C6: `determinant<Size>` is not the signed cofactor expansion at `Size = 3`. On the
3x3 permutation matrix that swaps the first two axes the claimed expansion, with the
sign -1 on column 1, is -1, the determinant; the code, whose sign factor
`1+((column & 1)*-2)` is computed in `size_t`, returns `2 ^ 64 - 1`. -/
theorem determinant_3x3_sign_wraps :
    determinant 3 sample_swap_3x3 = 18446744073709551615 ∧
    (Finset.range 3).sum (fun c =>
      sample_swap_3x3.get c 0 * (if c % 2 = 0 then 1 else -1)
        * determinant 2 (minor_matrix sample_swap_3x3 c 0)) = -1 ∧
    (to_Matrix sample_swap_3x3).det = -1 ∧
    determinant_sign 1 = 18446744073709551615 := by
  refine ⟨by decide!, by decide!, ?_, by decide⟩
  rw [Matrix.det_fin_three]
  simp only [to_Matrix, Matrix.of_apply]
  have e : ∀ c r : Fin 3, sample_swap_3x3.get c.val r.val
      = (![0, 1, 0, 1, 0, 0, 0, 0, 1] : Fin 9 → ℚ) ⟨c.val * 3 + r.val, by omega⟩ := by
    decide!
  simp only [e]
  norm_num [Fin.val]

/-- C7: `cofactor_matrix<Size>` does not use the checkerboard sign. The factor
`(1+(column ^ row)*-2)` is computed in `size_t` and the XOR is not masked to its low
bit: it is `2 ^ 64 - 1` at `(0, 1)` and `2 ^ 64 - 3` at `(0, 2)`, for -1 and +1. -/
theorem cofactor_matrix_sign_not_checkerboard :
    cofactor_sign 0 1 = 18446744073709551615 ∧
    cofactor_sign 0 2 = 18446744073709551613 ∧
    (cofactor_matrix 2 sample_2x2).get 0 1 = 55340232221128654845 ∧
    determinant 1 (minor_matrix sample_2x2 0 1) * (-1) = -3 ∧
    (cofactor_matrix 3 sample_shear_3x3).get 0 2 = -18446744073709551613 ∧
    determinant 2 (minor_matrix sample_shear_3x3 0 2) * 1 = -1 := by
  refine ⟨by decide, by decide, by decide!, by decide!, by decide!, by decide!⟩

/-- C8: the matrix that `minor_matrix` builds in its local `mat` is `_matrix` without
the column `_cofactor_col` and the row `_cofactor_row`: `mat[i][j]` is
`_matrix[i'][j']` with `i' = i` below the deleted column and `i + 1` from it on, and
the same for rows. (The source body ends without returning `mat`.) -/
theorem minor_matrix_builds_minor (Size : Nat) (_matrix : matrix Size Size)
    (_cofactor_col _cofactor_row : Nat) (hcol : _cofactor_col < Size)
    (hrow : _cofactor_row < Size) (i j : Nat) (hi : i < Size - 1) (hj : j < Size - 1) :
    (minor_matrix _matrix _cofactor_col _cofactor_row).get i j
      = _matrix.get (if i < _cofactor_col then i else i + 1)
          (if j < _cofactor_row then j else j + 1) :=
  minor_matrix_get _matrix hcol hrow hi hj

/-- The minor property on the 3x3 shear, deleting column 1 and row 0, at cell `(1, 0)`. -/
theorem minor_matrix_builds_minor_witness :
    (1 < 3 ∧ 0 < 3 ∧ 1 < 3 - 1 ∧ 0 < 3 - 1) ∧
    (minor_matrix sample_shear_3x3 1 0).get 1 0
      = sample_shear_3x3.get (if 1 < 1 then 1 else 1 + 1) (if 0 < 0 then 0 else 0 + 1) :=
  ⟨by decide, minor_matrix_builds_minor 3 sample_shear_3x3 1 0 (by decide) (by decide) 1 0
    (by decide) (by decide)⟩

/-- C9: the closed-form 4x4 inverse and the generic adjugate method at `Size = 4`
disagree. On the 4x4 shear of determinant 1 the closed form has -1 at column 2, row 0,
the inverse's entry; the generic `inverse_matrix<4>` result has
`(2 ^ 64 - 3) * (2 ^ 64 - 1)` there. -/
theorem inverse_matrix4x4_differs_from_generic :
    (to_Matrix sample_shear_4x4).det = 1 ∧
    has_inverse (maths_util.approx_equal sample_epsilon) 4 sample_shear_4x4 = true ∧
    inverse_matrix (maths_util.approx_equal sample_epsilon) 4 sample_shear_4x4
      = some (matrix.scalar_mul (1 / determinant 4 sample_shear_4x4)
          (adjugate_matrix 4 sample_shear_4x4)) ∧
    (inverse_matrix4x4 sample_shear_4x4).get 2 0 = -1 ∧
    (matrix.scalar_mul (1 / determinant 4 sample_shear_4x4)
      (adjugate_matrix 4 sample_shear_4x4)).get 2 0
        = 340282366920938463389587631136930004995 ∧
    inverse_matrix4x4 sample_shear_4x4
      ≠ matrix.scalar_mul (1 / determinant 4 sample_shear_4x4)
          (adjugate_matrix 4 sample_shear_4x4) := by
  have h : has_inverse (maths_util.approx_equal sample_epsilon) 4 sample_shear_4x4 = true := by
    decide!
  refine ⟨?_, h, ?_, by decide!, by decide!, by decide!⟩
  · rw [← inverse_matrix4x4_determinant_eq_det]; decide!
  · unfold inverse_matrix
    rw [h]
    rfl

/-- C10: the determinant of the identity at sizes 1 to 4. The overloads give 1 at sizes 1
and 2. At sizes 3 and 4 only column 0 contributes and the result of `determinant<Size>`
is the determinant of the object that the call `minor_matrix(identity, 0, 0)` hands
back: `minor_matrix` has no `return` statement, and with an object its loops did not
fill (all zero) the result is 0, not 1. It is 1 when the matrix that the loops build is
handed back. -/
theorem determinant_identity_returned :
    (∀ _returned, determinant_returned _returned 1 (matrix.identity 1) = 1) ∧
    (∀ _returned, determinant_returned _returned 2 (matrix.identity 2) = 1) ∧
    (∀ _returned, determinant_returned _returned 3 (matrix.identity 3)
      = determinant_returned _returned 2 (_returned 2 (matrix.identity 3) 0 0)) ∧
    (∀ _returned, determinant_returned _returned 4 (matrix.identity 4)
      = determinant_returned _returned 3 (_returned 3 (matrix.identity 4) 0 0)) ∧
    determinant_returned returned_zero 3 (matrix.identity 3) = 0 ∧
    determinant_returned returned_zero 4 (matrix.identity 4) = 0 ∧
    determinant_returned returned_built 3 (matrix.identity 3) = 1 ∧
    determinant_returned returned_built 4 (matrix.identity 4) = 1 := by
  have s0 : determinant_sign 0 = 1 := by decide
  have i3 : (matrix.identity 3).get 0 0 = 1 ∧ (matrix.identity 3).get 1 0 = 0 ∧
      (matrix.identity 3).get 2 0 = 0 := by decide!
  have i4 : (matrix.identity 4).get 0 0 = 1 ∧ (matrix.identity 4).get 1 0 = 0 ∧
      (matrix.identity 4).get 2 0 = 0 ∧ (matrix.identity 4).get 3 0 = 0 := by decide!
  have h3 : ∀ _returned, determinant_returned _returned 3 (matrix.identity 3)
      = determinant_returned _returned 2 (_returned 2 (matrix.identity 3) 0 0) := by
    intro _returned
    rw [determinant_returned_expand]
    simp only [Finset.sum_range_succ, Finset.sum_range_zero, i3.1, i3.2.1, i3.2.2, s0]
    norm_num
  have h4 : ∀ _returned, determinant_returned _returned 4 (matrix.identity 4)
      = determinant_returned _returned 3 (_returned 3 (matrix.identity 4) 0 0) := by
    intro _returned
    rw [determinant_returned_expand]
    simp only [Finset.sum_range_succ, Finset.sum_range_zero, i4.1, i4.2.1, i4.2.2.1,
      i4.2.2.2, s0]
    norm_num
  have h1 : (matrix.identity 1).get 0 0 = 1 := by decide!
  have h2 : (matrix.identity 2).get 0 0 * (matrix.identity 2).get 1 1
      - (matrix.identity 2).get 1 0 * (matrix.identity 2).get 0 1 = 1 := by decide!
  refine ⟨fun _ => h1, fun _ => h2, h3, h4, ?_, ?_, ?_, ?_⟩
  · rw [h3]; decide!
  · rw [h4]
    exact determinant_returned_zero_row0 returned_zero 3 _ (fun c _ => matrix.get_zero c 0)
  · rw [determinant_returned_built]; decide!
  · rw [determinant_returned_built]; decide!

end mkr

/-! ## Zero lines, neutral elements, homogeneous columns -/

namespace mkr
namespace matrix_util

theorem skip_index_lt {Size deleted i : Nat} (hi : i < Size - 1) :
    skip_index deleted i < Size := by
  unfold skip_index
  split <;> omega

/-- The determinant of a matrix of size at least 2 with a zero row is 0, whatever the
sign factors of the expansion. -/
theorem determinant_zero_row (n : Nat) :
    ∀ (_matrix : matrix (n + 2) (n + 2)) (r : Nat), r < n + 2 →
      (∀ c, c < n + 2 → _matrix.get c r = 0) → determinant (n + 2) _matrix = 0 := by
  induction n with
  | zero =>
    intro _matrix r hr h
    rw [determinant_two]
    interval_cases r
    · rw [h 0 (by decide), h 1 (by decide)]; ring
    · rw [h 0 (by decide), h 1 (by decide)]; ring
  | succ n ih =>
    intro _matrix r hr h
    rw [determinant_expand]
    apply Finset.sum_eq_zero
    intro column hcolumn
    have hcol : column < n + 3 := Finset.mem_range.mp hcolumn
    rcases Nat.eq_zero_or_pos r with h0 | hpos
    · subst h0
      rw [h column hcol]; ring
    · have hminor : determinant (n + 2) (minor_matrix _matrix column 0) = 0 := by
        apply ih (minor_matrix _matrix column 0) (r - 1) (by omega)
        intro c hc
        have hc1 : c < n + 3 - 1 := by omega
        have hr1 : r - 1 < n + 3 - 1 := by omega
        rw [minor_matrix_get _matrix hcol (by omega) hc1 hr1]
        have e : skip_index 0 (r - 1) = r := by unfold skip_index; split <;> omega
        rw [e]
        exact h _ (skip_index_lt hc1)
      rw [hminor]; ring

/-- The determinant of a matrix of size at least 2 with a zero column is 0, whatever the
sign factors of the expansion. -/
theorem determinant_zero_column (n : Nat) :
    ∀ (_matrix : matrix (n + 2) (n + 2)) (c : Nat), c < n + 2 →
      (∀ r, r < n + 2 → _matrix.get c r = 0) → determinant (n + 2) _matrix = 0 := by
  induction n with
  | zero =>
    intro _matrix c hc h
    rw [determinant_two]
    interval_cases c
    · rw [h 0 (by decide), h 1 (by decide)]; ring
    · rw [h 0 (by decide), h 1 (by decide)]; ring
  | succ n ih =>
    intro _matrix c hc h
    rw [determinant_expand]
    apply Finset.sum_eq_zero
    intro column hcolumn
    have hcol : column < n + 3 := Finset.mem_range.mp hcolumn
    by_cases hcc : column = c
    · subst hcc
      rw [h 0 (by omega)]; ring
    · have hminor : determinant (n + 2) (minor_matrix _matrix column 0) = 0 := by
        apply ih (minor_matrix _matrix column 0) (if c < column then c else c - 1)
          (by split <;> omega)
        intro r hr
        have hr1 : r < n + 3 - 1 := by omega
        have hc1 : (if c < column then c else c - 1) < n + 3 - 1 := by split <;> omega
        rw [minor_matrix_get _matrix hcol (by omega) hc1 hr1]
        have e : skip_index column (if c < column then c else c - 1) = c := by
          unfold skip_index; split_ifs <;> omega
        rw [e]
        exact h _ (skip_index_lt hr1)
      rw [hminor]; ring

end matrix_util

namespace matrix

/-- Column `3` of a product whose right factor has the homogeneous column `(0, 0, 0, 1)`
as its column 3 is column 3 of the left factor. -/
theorem get_mul_column3 (lhs _rhs : matrix 4 4)
    (h : ∀ k, k < 4 → _rhs.get 3 k = if k = 3 then 1 else 0) {j : Nat} (hj : j < 4) :
    (lhs.mul _rhs).get 3 j = lhs.get 3 j := by
  rw [get_mul lhs _rhs (by decide) hj]
  simp only [Finset.sum_range_succ, Finset.sum_range_zero]
  rw [h 0 (by decide), h 1 (by decide), h 2 (by decide), h 3 (by decide)]
  simp

/-- A 4x4 matrix times the homogeneous origin column is its column 3. -/
theorem get_mul_origin_column (m : matrix 4 4) {j : Nat} (hj : j < 4) :
    (m.mul origin_column).get 0 j = m.get 3 j := by
  rw [get_mul m origin_column (by decide) hj]
  simp only [Finset.sum_range_succ, Finset.sum_range_zero]
  have e0 : origin_column.get 0 0 = 0 := rfl
  have e1 : origin_column.get 0 1 = 0 := rfl
  have e2 : origin_column.get 0 2 = 0 := rfl
  have e3 : origin_column.get 0 3 = 1 := rfl
  rw [e0, e1, e2, e3]
  simp

end matrix
end mkr

/-! ## The properties, continued: determinant, product, transpose, builders -/

namespace mkr
open matrix_util

/-- C11: the determinant on a zero row or column. For a matrix with a row or a column of
zeros the overloads give 0 at sizes 1 and 2, the result is 0 at every size when row 0 is
the zero row, whatever the calls of `minor_matrix` hand back, and it is 0 when the
matrix that the loops of `minor_matrix` build is handed back. For another zero line the
result of `determinant<Size>` follows the handed-back objects, which `minor_matrix`,
having no `return` statement, does not set: on the 3x3 matrix whose row 1 is zero, with
objects of determinant 1 handed back, it is `3 * 2 ^ 64 + 3`. -/
theorem determinant_zero_line_returned
    (_returned : (n : Nat) → matrix (n + 1) (n + 1) → Nat → Nat → matrix n n)
    (Size : Nat) (_matrix : matrix Size Size)
    (h : (∃ r, r < Size ∧ ∀ c, c < Size → _matrix.get c r = 0) ∨
      (∃ c, c < Size ∧ ∀ r, r < Size → _matrix.get c r = 0)) :
    (Size ≤ 2 → determinant_returned _returned Size _matrix = 0) ∧
    ((∀ c, c < Size → _matrix.get c 0 = 0) →
      determinant_returned _returned Size _matrix = 0) ∧
    determinant_returned returned_built Size _matrix = 0 ∧
    ((∀ c, c < 3 → sample_zero_row_3x3.get c 1 = 0) ∧
      determinant_returned returned_identity 3 sample_zero_row_3x3
        = 55340232221128654851) := by
  have hbuilt : determinant Size _matrix = 0 := by
    match Size, _matrix, h with
    | 0, _, _ => rfl
    | 1, _matrix, h =>
      rw [determinant_one]
      rcases h with ⟨r, hr, h⟩ | ⟨c, hc, h⟩
      · have : r = 0 := by omega
        subst this
        exact h 0 (by decide)
      · have : c = 0 := by omega
        subst this
        exact h 0 (by decide)
    | n + 2, _matrix, h =>
      rcases h with ⟨r, hr, h⟩ | ⟨c, hc, h⟩
      · exact determinant_zero_row n _matrix r hr h
      · exact determinant_zero_column n _matrix c hc h
  refine ⟨?_, determinant_returned_zero_row0 _returned Size _matrix, ?_, ?_, ?_⟩
  · intro hsize
    match Size, _matrix, hbuilt, hsize with
    | 0, _, _, _ => rfl
    | 1, _, hbuilt, _ => exact hbuilt
    | 2, _, hbuilt, _ => exact hbuilt
  · rw [determinant_returned_built]; exact hbuilt
  · intro c hc
    interval_cases c <;> rfl
  · decide!

/-- The 3x3 matrix whose row 1 is zero, with the built minors handed back. -/
theorem determinant_zero_line_returned_witness :
    ((∃ r, r < 3 ∧ ∀ c, c < 3 → sample_zero_row_3x3.get c r = 0) ∨
      (∃ c, c < 3 ∧ ∀ r, r < 3 → sample_zero_row_3x3.get c r = 0)) ∧
    determinant_returned returned_built 3 sample_zero_row_3x3 = 0 :=
  have h : (∃ r, r < 3 ∧ ∀ c, c < 3 → sample_zero_row_3x3.get c r = 0) ∨
      (∃ c, c < 3 ∧ ∀ r, r < 3 → sample_zero_row_3x3.get c r = 0) :=
    Or.inl ⟨1, by decide, fun c hc => by interval_cases c <;> rfl⟩
  ⟨h, (determinant_zero_line_returned returned_identity 3 sample_zero_row_3x3 h).2.2.1⟩

/-- C12: the matrix product follows the `[column][row]` convention. For `A` with `k`
columns and `m` rows and `B` with `n` columns and `k` rows, `A * B` has `n` columns and
`m` rows (its type) and `(A * B)[i][j]` is the sum over `t < k` of
`A[t][j] * B[i][t]`, for every column `i < n` and row `j < m`. -/
theorem mul_entry (k m n : Nat) (A : matrix k m) (B : matrix n k) (i j : Nat)
    (hi : i < n) (hj : j < m) :
    ((A.mul B : matrix n m)).get i j
      = (Finset.range k).sum (fun t => A.get t j * B.get i t) :=
  matrix.get_mul A B hi hj

/-- The product of a 3-column, 2-row matrix and a 2-column, 3-row one, at `[1][0]`. -/
theorem mul_entry_witness :
    (1 < 2 ∧ 0 < 2) ∧
    (sample_3x2.mul sample_2x3).get 1 0
      = (Finset.range 3).sum (fun t => sample_3x2.get t 0 * sample_2x3.get 1 t) :=
  ⟨by decide, mul_entry 3 2 2 sample_3x2 sample_2x3 1 0 (by decide) (by decide)⟩

/-- C13: the identity is neutral for the product. For every size, so for sizes 1 to 4,
and every square matrix `M`, `M * identity()` and `identity() * M` are `M` element for
element; so both `==` comparisons with `M` hold, for any `approx_equal` that accepts
equal values. -/
theorem mul_identity_neutral (Size : Nat) (_matrix : matrix Size Size) :
    _matrix.mul (matrix.identity Size) = _matrix ∧
    (matrix.identity Size).mul _matrix = _matrix ∧
    ∀ approx_equal : ℚ → ℚ → Bool, (∀ x, approx_equal x x = true) →
      matrix.eq_op approx_equal (_matrix.mul (matrix.identity Size)) _matrix = true ∧
      matrix.eq_op approx_equal ((matrix.identity Size).mul _matrix) _matrix = true := by
  have hright : _matrix.mul (matrix.identity Size) = _matrix := by
    apply matrix.ext_get
    intro c r hc hr
    rw [matrix.get_mul _ _ hc hr]
    rw [Finset.sum_congr rfl (fun k hk => by
      rw [matrix.get_identity Size hc (Finset.mem_range.mp hk)])]
    simp [Finset.sum_ite_eq, hc]
  have hleft : (matrix.identity Size).mul _matrix = _matrix := by
    apply matrix.ext_get
    intro c r hc hr
    rw [matrix.get_mul _ _ hc hr]
    rw [Finset.sum_congr rfl (fun k hk => by
      rw [matrix.get_identity Size (Finset.mem_range.mp hk) hr])]
    simp [Finset.sum_ite_eq', hr]
  refine ⟨hright, hleft, ?_⟩
  intro approx_equal hrefl
  rw [hright, hleft]
  exact ⟨matrix.eq_op_self approx_equal hrefl _, matrix.eq_op_self approx_equal hrefl _⟩

/-- The neutrality of the identity on the 2x2 matrix with columns `(1, 2)`, `(3, 4)`,
with the absolute-difference test as `approx_equal`. -/
theorem mul_identity_neutral_witness :
    (∀ x, maths_util.approx_equal sample_epsilon x x = true) ∧
    sample_2x2.mul (matrix.identity 2) = sample_2x2 ∧
    (matrix.identity 2).mul sample_2x2 = sample_2x2 ∧
    matrix.eq_op (maths_util.approx_equal sample_epsilon)
      (sample_2x2.mul (matrix.identity 2)) sample_2x2 = true ∧
    matrix.eq_op (maths_util.approx_equal sample_epsilon)
      ((matrix.identity 2).mul sample_2x2) sample_2x2 = true :=
  have hrefl : ∀ x, maths_util.approx_equal sample_epsilon x x = true := fun x => by
    simp [maths_util.approx_equal, sample_epsilon]
  ⟨hrefl, (mul_identity_neutral 2 sample_2x2).1, (mul_identity_neutral 2 sample_2x2).2.1,
    (mul_identity_neutral 2 sample_2x2).2.2 _ hrefl⟩

/-- C14: the double transpose is the identity. For every matrix `M` of any shape,
`M.transposed().transposed()` is `M` element for element, so `==` holds for any
`approx_equal` that accepts equal values; and `M.transposed()[j][i]` is `M[i][j]` for
every column `i` and row `j` of `M`. -/
theorem transposed_transposed (Columns Rows : Nat) (m : matrix Columns Rows) :
    m.transposed.transposed = m ∧
    (∀ i j, i < Columns → j < Rows → m.transposed.get j i = m.get i j) ∧
    ∀ approx_equal : ℚ → ℚ → Bool, (∀ x, approx_equal x x = true) →
      matrix.eq_op approx_equal m.transposed.transposed m = true := by
  have h : m.transposed.transposed = m := by
    apply matrix.ext_get
    intro c r hc hr
    rw [matrix.get_transposed m.transposed hr hc, matrix.get_transposed m hc hr]
  refine ⟨h, fun i j hi hj => matrix.get_transposed m hi hj, ?_⟩
  intro approx_equal hrefl
  rw [h]
  exact matrix.eq_op_self approx_equal hrefl _

/-- The transpose of the 3-column, 2-row sample, at column 1 and row 0. -/
theorem transposed_transposed_witness :
    (1 < 3 ∧ 0 < 2) ∧
    sample_3x2.transposed.transposed = sample_3x2 ∧
    sample_3x2.transposed.get 0 1 = sample_3x2.get 1 0 :=
  ⟨by decide, (transposed_transposed 3 2 sample_3x2).1,
    (transposed_transposed 3 2 sample_3x2).2.1 1 0 (by decide) (by decide)⟩

/-- C15, as the code has it: `view_matrix(forward, up, position)` holds `right`, `up` and
`-forward` in its rows 0, 1, 2, not in its columns. With `right = forward.cross(up)`,
column 0 is `(right.x, up.x, -forward.x, 0)`, column 1 is `(right.y, up.y, -forward.y, 0)`,
column 2 is `(right.z, up.z, -forward.z, 0)` and column 3 is
`(position.x, position.y, position.z, 1)`. -/
theorem view_matrix_layout (_forward _up _position : vector3) :
    view_matrix _forward _up _position
      = ⟨![(_forward.cross _up).x_, _up.x_, -_forward.x_, 0,
          (_forward.cross _up).y_, _up.y_, -_forward.y_, 0,
          (_forward.cross _up).z_, _up.z_, -_forward.z_, 0,
          _position.x_, _position.y_, _position.z_, 1]⟩ := by
  apply matrix.ext_get
  intro c r hc hr
  interval_cases c <;> interval_cases r <;> rfl

/-- C15 fails as stated: for `forward = (1, 0, 0)`, `up = (0, 1, 0)`, so that
`right = (0, 0, 1)`, and `position = (5, 6, 7)`, column 0 of the view matrix is
`(0, 0, -1, 0)`, not `(right.x, right.y, right.z, 0) = (0, 0, 1, 0)`, and column 2 is
`(1, 0, 0, 0)`, not `(-forward.x, -forward.y, -forward.z, 0) = (-1, 0, 0, 0)`. -/
theorem view_matrix_columns_counterexample :
    ¬ ((view_matrix sample_forward sample_up sample_position).get 0 0
          = (sample_forward.cross sample_up).x_ ∧
        (view_matrix sample_forward sample_up sample_position).get 0 1
          = (sample_forward.cross sample_up).y_ ∧
        (view_matrix sample_forward sample_up sample_position).get 0 2
          = (sample_forward.cross sample_up).z_ ∧
        (view_matrix sample_forward sample_up sample_position).get 0 3 = 0 ∧
        (view_matrix sample_forward sample_up sample_position).get 1 0 = sample_up.x_ ∧
        (view_matrix sample_forward sample_up sample_position).get 1 1 = sample_up.y_ ∧
        (view_matrix sample_forward sample_up sample_position).get 1 2 = sample_up.z_ ∧
        (view_matrix sample_forward sample_up sample_position).get 1 3 = 0 ∧
        (view_matrix sample_forward sample_up sample_position).get 2 0
          = -sample_forward.x_ ∧
        (view_matrix sample_forward sample_up sample_position).get 2 1
          = -sample_forward.y_ ∧
        (view_matrix sample_forward sample_up sample_position).get 2 2
          = -sample_forward.z_ ∧
        (view_matrix sample_forward sample_up sample_position).get 2 3 = 0 ∧
        (view_matrix sample_forward sample_up sample_position).get 3 0
          = sample_position.x_ ∧
        (view_matrix sample_forward sample_up sample_position).get 3 1
          = sample_position.y_ ∧
        (view_matrix sample_forward sample_up sample_position).get 3 2
          = sample_position.z_ ∧
        (view_matrix sample_forward sample_up sample_position).get 3 3 = 1) := by
  decide!

/-- C16: `perspective_matrix` does not return the documented pattern. It starts from
`matrix4x4::identity()` and never clears `mat[3][3]`, so the entry at column 3, row 3 is
1 for every input, where the claim and the comment in the function have 0; the other
fifteen entries are as claimed. -/
theorem perspective_matrix_entries (std : cmath)
    (_aspect_ratio _fov _near_plane _far_plane : ℚ) :
    perspective_matrix std _aspect_ratio _fov _near_plane _far_plane
      = ⟨![1 / std.tan (1 / 2 * _fov) / _aspect_ratio, 0, 0, 0,
          0, 1 / std.tan (1 / 2 * _fov), 0, 0,
          0, 0, (_near_plane + _far_plane) / (_near_plane - _far_plane), -1,
          0, 0, 2 * _near_plane * _far_plane / (_near_plane - _far_plane), 1]⟩ ∧
    (perspective_matrix std _aspect_ratio _fov _near_plane _far_plane).get 3 3 = 1 := by
  constructor
  · apply matrix.ext_get
    intro c r hc hr
    interval_cases c <;> interval_cases r <;> rfl
  · rfl

/-- C17, as the code has it: with the divisors non-zero (`aspect_ratio`, `ortho_size`
and `near - far` are not 0), the aspect-ratio overload of `orthographic_matrix` agrees
with the explicit-bounds overload, called with `top = ortho_size/2`, `bottom = -top`,
`right = top*aspect_ratio` and `left = -right`, at every `[column][row]` other than
`[2][2]` and `[3][2]`; its entry `[3][2]` is 0, since it places no translation. -/
theorem orthographic_overloads_agree_off_depth
    (_aspect_ratio _ortho_size _near_plane _far_plane : ℚ)
    (_hratio : _aspect_ratio ≠ 0) (_hsize : _ortho_size ≠ 0)
    (_hdepth : _near_plane ≠ _far_plane) :
    (∀ c r, c < 4 → r < 4 → ¬ (c = 2 ∧ r = 2) → ¬ (c = 3 ∧ r = 2) →
      (orthographic_matrix_aspect _aspect_ratio _ortho_size _near_plane _far_plane).get c r
        = (orthographic_matrix (-(_ortho_size / 2 * _aspect_ratio))
            (_ortho_size / 2 * _aspect_ratio) (_ortho_size / 2) (-(_ortho_size / 2))
            _near_plane _far_plane).get c r) ∧
    (orthographic_matrix_aspect _aspect_ratio _ortho_size _near_plane _far_plane).get 3 2
      = 0 := by
  refine ⟨?_, rfl⟩
  intro c r hc hr h22 h32
  have a00 : (orthographic_matrix_aspect _aspect_ratio _ortho_size _near_plane
      _far_plane).get 0 0
      = 2 / (_ortho_size * (1 / 2) * _aspect_ratio
          - -(_ortho_size * (1 / 2)) * _aspect_ratio) := rfl
  have a11 : (orthographic_matrix_aspect _aspect_ratio _ortho_size _near_plane
      _far_plane).get 1 1
      = 2 / (_ortho_size * (1 / 2) - -(_ortho_size * (1 / 2))) := rfl
  have a30 : (orthographic_matrix_aspect _aspect_ratio _ortho_size _near_plane
      _far_plane).get 3 0 = 0 := rfl
  have a31 : (orthographic_matrix_aspect _aspect_ratio _ortho_size _near_plane
      _far_plane).get 3 1 = 0 := rfl
  have b00 : ∀ l r t b n f : ℚ, (orthographic_matrix l r t b n f).get 0 0 = 2 / (r - l) :=
    fun _ _ _ _ _ _ => rfl
  have b11 : ∀ l r t b n f : ℚ, (orthographic_matrix l r t b n f).get 1 1 = 2 / (t - b) :=
    fun _ _ _ _ _ _ => rfl
  have b30 : ∀ l r t b n f : ℚ,
      (orthographic_matrix l r t b n f).get 3 0 = (r + l) / (l - r) :=
    fun _ _ _ _ _ _ => rfl
  have b31 : ∀ l r t b n f : ℚ,
      (orthographic_matrix l r t b n f).get 3 1 = (t + b) / (b - t) :=
    fun _ _ _ _ _ _ => rfl
  interval_cases c <;> interval_cases r <;>
    first
    | (exfalso; omega)
    | (rw [a00, b00]; ring)
    | (rw [a11, b11]; ring)
    | (rw [a30, b30]; ring)
    | (rw [a31, b31]; ring)
    | rfl

/-- The agreement of the two overloads at `[0][0]`, for `aspect_ratio = 2`,
`ortho_size = 2`, `near = 1`, `far = 3`. -/
theorem orthographic_overloads_agree_off_depth_witness :
    ((2 : ℚ) ≠ 0 ∧ (2 : ℚ) ≠ 0 ∧ (1 : ℚ) ≠ 3) ∧
    (0 < 4 ∧ 0 < 4 ∧ ¬ (0 = 2 ∧ 0 = 2) ∧ ¬ (0 = 3 ∧ 0 = 2)) ∧
    (orthographic_matrix_aspect 2 2 1 3).get 0 0
      = (orthographic_matrix (-(2 / 2 * 2)) (2 / 2 * 2) (2 / 2) (-(2 / 2)) 1 3).get 0 0 :=
  ⟨⟨by norm_num, by norm_num, by norm_num⟩, by decide,
    (orthographic_overloads_agree_off_depth 2 2 1 3 (by norm_num) (by norm_num)
      (by norm_num)).1 0 0 (by decide) (by decide) (by decide) (by decide)⟩

/-- C17 fails as stated: for `aspect_ratio = 2`, `ortho_size = 2`, `near = 1`, `far = 3`,
so that `top = 1`, `bottom = -1`, `right = 2`, `left = -2`, the aspect-ratio overload has
0 at `[3][2]` and 1 at `[2][2]`, the explicit-bounds overload has -2 and -1. -/
theorem orthographic_overloads_counterexample :
    orthographic_matrix_aspect 2 2 1 3 ≠ orthographic_matrix (-2) 2 1 (-1) 1 3 ∧
    (orthographic_matrix_aspect 2 2 1 3).get 3 2 = 0 ∧
    (orthographic_matrix (-2) 2 1 (-1) 1 3).get 3 2 = -2 ∧
    (orthographic_matrix_aspect 2 2 1 3).get 2 2 = 1 ∧
    (orthographic_matrix (-2) 2 1 (-1) 1 3).get 2 2 = -1 := by
  refine ⟨by decide!, by decide!, by decide!, by decide!, by decide!⟩

/-- C18, as the code has it: `orthographic_matrix(left=-1, right=1, top=1, bottom=-1,
near=0, far=-2)` has the diagonal scale terms `[0][0] = 1`, `[1][1] = 1` and
`[2][2] = 2/(near - far) = 1`. -/
theorem orthographic_reference_output :
    (orthographic_matrix (-1) 1 1 (-1) 0 (-2)).get 0 0 = 1 ∧
    (orthographic_matrix (-1) 1 1 (-1) 0 (-2)).get 1 1 = 1 ∧
    (orthographic_matrix (-1) 1 1 (-1) 0 (-2)).get 2 2 = 1 := by
  refine ⟨by decide!, by decide!, by decide!⟩

/-- C18 fails as stated: the entry `[2][2]` of the reference output is 1, not -1. -/
theorem orthographic_reference_counterexample :
    ¬ ((orthographic_matrix (-1) 1 1 (-1) 0 (-2)).get 0 0 = 1 ∧
      (orthographic_matrix (-1) 1 1 (-1) 0 (-2)).get 1 1 = 1 ∧
      (orthographic_matrix (-1) 1 1 (-1) 0 (-2)).get 2 2 = -1) := by
  decide!

/-- The columns 3 of the axis rotations, of their product and of the scale matrix are
the homogeneous column `(0, 0, 0, 1)`. -/
theorem rotation_matrix_column3 (std : cmath) (_euler_angles : vector3) (k : Nat)
    (hk : k < 4) :
    (rotation_matrix std _euler_angles).get 3 k = if k = 3 then 1 else 0 := by
  have hx : ∀ a k, k < 4 → (rotation_matrix_x std a).get 3 k = if k = 3 then 1 else 0 := by
    intro a k hk
    interval_cases k <;> rfl
  have hy : ∀ a k, k < 4 → (rotation_matrix_y std a).get 3 k = if k = 3 then 1 else 0 := by
    intro a k hk
    interval_cases k <;> rfl
  have hz : ∀ a k, k < 4 → (rotation_matrix_z std a).get 3 k = if k = 3 then 1 else 0 := by
    intro a k hk
    interval_cases k <;> rfl
  unfold rotation_matrix
  rw [matrix.get_mul_column3 _ _ (hz _) hk, matrix.get_mul_column3 _ _ (hy _) hk, hx _ k hk]

theorem scale_matrix_column3 (_scale : vector3) (k : Nat) (hk : k < 4) :
    (scale_matrix _scale).get 3 k = if k = 3 then 1 else 0 := by
  interval_cases k <;> rfl

/-- C19: the model matrix sends the origin to the translation. For every translation
`t`, every vector of Euler angles and every scale, whatever the values of `std::cos` and
`std::sin`, `model_matrix(t, euler, s)`, which is
`translation_matrix(t) * rotation_matrix(euler) * scale_matrix(s)`, times the homogeneous
origin column `(0, 0, 0, 1)` is `(t.x, t.y, t.z, 1)`; so `(1, 0, 0, 1)` for
`t = (1, 0, 0)`, `euler = (0, pi/2, 0)`, `s = (1, 1, 1)`. -/
theorem model_matrix_origin (std : cmath) (_translation _euler_angles _scale : vector3) :
    model_matrix std _translation _euler_angles _scale
      = ((translation_matrix _translation).mul (rotation_matrix std _euler_angles)).mul
          (scale_matrix _scale) ∧
    (model_matrix std _translation _euler_angles _scale).mul origin_column
      = ⟨![_translation.x_, _translation.y_, _translation.z_, 1]⟩ := by
  refine ⟨rfl, ?_⟩
  apply matrix.ext_get
  intro c r hc hr
  have hc0 : c = 0 := by omega
  subst hc0
  rw [matrix.get_mul_origin_column _ hr]
  unfold model_matrix
  rw [matrix.get_mul_column3 _ _ (scale_matrix_column3 _scale) hr,
    matrix.get_mul_column3 _ _ (rotation_matrix_column3 std _euler_angles) hr]
  interval_cases r <;> rfl

/-- C20: the translation matrix moves the origin to `t`. For every vector `t`,
`translation_matrix(t)` is the 4x4 identity with `(t.x, t.y, t.z)` in rows 0 to 2 of
column 3, and its product with the homogeneous origin column `(0, 0, 0, 1)` is
`(t.x, t.y, t.z, 1)`. -/
theorem translation_matrix_origin (_translation : vector3) :
    translation_matrix _translation
      = ⟨![1, 0, 0, 0, 0, 1, 0, 0, 0, 0, 1, 0,
          _translation.x_, _translation.y_, _translation.z_, 1]⟩ ∧
    matrix.identity 4 = ⟨![1, 0, 0, 0, 0, 1, 0, 0, 0, 0, 1, 0, 0, 0, 0, 1]⟩ ∧
    (translation_matrix _translation).mul origin_column
      = ⟨![_translation.x_, _translation.y_, _translation.z_, 1]⟩ := by
  refine ⟨?_, ?_, ?_⟩
  · apply matrix.ext_get
    intro c r hc hr
    interval_cases c <;> interval_cases r <;> rfl
  · apply matrix.ext_get
    intro c r hc hr
    interval_cases c <;> interval_cases r <;> rfl
  · apply matrix.ext_get
    intro c r hc hr
    have hc0 : c = 0 := by omega
    subst hc0
    rw [matrix.get_mul_origin_column _ hr]
    interval_cases r <;> rfl

end mkr

/-! ## Entries of the builders -/

namespace mkr
namespace matrix

/-- The entries of a literal column of four rows. -/
theorem column_get (a b c d : ℚ) {k : Nat} (hk : k < 4) :
    (⟨![a, b, c, d]⟩ : matrix 1 4).get 0 k
      = if k = 0 then a else if k = 1 then b else if k = 2 then c else d := by
  interval_cases k <;> rfl

end matrix

namespace matrix_util

theorem translation_matrix_get (_translation : vector3) {c r : Nat} (hc : c < 4)
    (hr : r < 4) :
    (translation_matrix _translation).get c r
      = if c = 3 ∧ r = 0 then _translation.x_
        else if c = 3 ∧ r = 1 then _translation.y_
        else if c = 3 ∧ r = 2 then _translation.z_
        else if c = r then 1 else 0 := by
  interval_cases c <;> interval_cases r <;> rfl

theorem translation_matrix_read (_translation : vector3) {k : Nat} (hk : k < 16) :
    (translation_matrix _translation).read k
      = if k = 12 then _translation.x_
        else if k = 13 then _translation.y_
        else if k = 14 then _translation.z_
        else if k % 5 = 0 then 1 else 0 := by
  interval_cases k <;> rfl

theorem rotation_matrix_x_get (std : cmath) (_angle : ℚ) {c r : Nat} (hc : c < 4)
    (hr : r < 4) :
    (rotation_matrix_x std _angle).get c r
      = if c = 1 ∧ r = 1 then std.cos _angle
        else if c = 2 ∧ r = 2 then std.cos _angle
        else if c = 1 ∧ r = 2 then std.sin _angle
        else if c = 2 ∧ r = 1 then -std.sin _angle
        else if c = r then 1 else 0 := by
  interval_cases c <;> interval_cases r <;> rfl

theorem rotation_matrix_y_get (std : cmath) (_angle : ℚ) {c r : Nat} (hc : c < 4)
    (hr : r < 4) :
    (rotation_matrix_y std _angle).get c r
      = if c = 0 ∧ r = 0 then std.cos _angle
        else if c = 2 ∧ r = 2 then std.cos _angle
        else if c = 2 ∧ r = 0 then std.sin _angle
        else if c = 0 ∧ r = 2 then -std.sin _angle
        else if c = r then 1 else 0 := by
  interval_cases c <;> interval_cases r <;> rfl

theorem rotation_matrix_z_get (std : cmath) (_angle : ℚ) {c r : Nat} (hc : c < 4)
    (hr : r < 4) :
    (rotation_matrix_z std _angle).get c r
      = if c = 0 ∧ r = 0 then std.cos _angle
        else if c = 1 ∧ r = 1 then std.cos _angle
        else if c = 0 ∧ r = 1 then std.sin _angle
        else if c = 1 ∧ r = 0 then -std.sin _angle
        else if c = r then 1 else 0 := by
  interval_cases c <;> interval_cases r <;> rfl

theorem orthographic_matrix_get (_left _right _top _bottom _near_plane _far_plane : ℚ)
    {c r : Nat} (hc : c < 4) (hr : r < 4) :
    (orthographic_matrix _left _right _top _bottom _near_plane _far_plane).get c r
      = if c = 0 ∧ r = 0 then 2 / (_right - _left)
        else if c = 1 ∧ r = 1 then 2 / (_top - _bottom)
        else if c = 2 ∧ r = 2 then 2 / (_near_plane - _far_plane)
        else if c = 3 ∧ r = 0 then (_right + _left) / (_left - _right)
        else if c = 3 ∧ r = 1 then (_top + _bottom) / (_bottom - _top)
        else if c = 3 ∧ r = 2 then (_far_plane + _near_plane) / (_near_plane - _far_plane)
        else if c = r then 1 else 0 := by
  interval_cases c <;> interval_cases r <;> rfl

end matrix_util
end mkr

/-! ## The properties, continued: rotations, constants, projection, recursion, algebra -/

namespace mkr
open matrix_util

/-- C21: a zero rotation is the identity. Given `cos 0 = 1` and `sin 0 = 0`,
`rotation_matrix_x(0)` is `matrix4x4::identity()` element for element, so the two are
`==` for any `approx_equal` that accepts equal values. -/
theorem rotation_matrix_x_zero (std : cmath) (hcos : std.cos 0 = 1) (hsin : std.sin 0 = 0) :
    rotation_matrix_x std 0 = matrix.identity 4 ∧
    ∀ approx_equal : ℚ → ℚ → Bool, (∀ x, approx_equal x x = true) →
      matrix.eq_op approx_equal (rotation_matrix_x std 0) (matrix.identity 4) = true := by
  have h : rotation_matrix_x std 0 = matrix.identity 4 := by
    apply matrix.ext_get
    intro c r hc hr
    rw [rotation_matrix_x_get std 0 hc hr, matrix.get_identity 4 hc hr, hcos, hsin]
    interval_cases c <;> interval_cases r <;> simp
  refine ⟨h, ?_⟩
  intro approx_equal hrefl
  rw [h]
  exact matrix.eq_op_self approx_equal hrefl _

/-- The zero rotation with cosine 1 and sine 0. -/
theorem rotation_matrix_x_zero_witness :
    (sample_cmath_zero.cos 0 = 1 ∧ sample_cmath_zero.sin 0 = 0) ∧
    rotation_matrix_x sample_cmath_zero 0 = matrix.identity 4 :=
  ⟨⟨rfl, rfl⟩, (rotation_matrix_x_zero sample_cmath_zero rfl rfl).1⟩

/-- C22: the rotation about X turns +Y towards +Z. For every angle `a`,
`rotation_matrix_x(a)` times the homogeneous column `(0, 1, 0, 1)` is
`(0, cos a, sin a, 1)`; so where `cos a = -1` and `sin a = 0`, as at `a = pi`, the point
`(0, 1, 0)` is mapped to `(0, -1, 0)`. -/
theorem rotation_matrix_x_y_axis (std : cmath) (_angle : ℚ) :
    (rotation_matrix_x std _angle).mul y_axis_column
      = ⟨![0, std.cos _angle, std.sin _angle, 1]⟩ ∧
    (std.cos _angle = -1 → std.sin _angle = 0 →
      (rotation_matrix_x std _angle).mul y_axis_column = ⟨![0, -1, 0, 1]⟩) := by
  have h : (rotation_matrix_x std _angle).mul y_axis_column
      = ⟨![0, std.cos _angle, std.sin _angle, 1]⟩ := by
    apply matrix.ext_get
    intro c r hc hr
    have hc0 : c = 0 := by omega
    subst hc0
    have hy : ∀ k, k < 4 → y_axis_column.get 0 k
        = if k = 0 then 0 else if k = 1 then 1 else if k = 2 then 0 else 1 :=
      fun k hk => matrix.column_get 0 1 0 1 hk
    rw [matrix.get_mul _ _ (by decide) hr, matrix.column_get _ _ _ _ hr]
    simp only [Finset.sum_range_succ, Finset.sum_range_zero]
    rw [hy 0 (by decide), hy 1 (by decide), hy 2 (by decide), hy 3 (by decide),
      rotation_matrix_x_get std _angle (by decide) hr,
      rotation_matrix_x_get std _angle (by decide) hr,
      rotation_matrix_x_get std _angle (by decide) hr,
      rotation_matrix_x_get std _angle (by decide) hr]
    interval_cases r <;> simp
  refine ⟨h, ?_⟩
  intro hcos hsin
  rw [h, hcos, hsin]

/-- The rotation about X with cosine -1 and sine 0 maps `(0, 1, 0)` to `(0, -1, 0)`. -/
theorem rotation_matrix_x_y_axis_witness :
    (sample_cmath_pi.cos 3 = -1 ∧ sample_cmath_pi.sin 3 = 0) ∧
    (rotation_matrix_x sample_cmath_pi 3).mul y_axis_column = ⟨![0, -1, 0, 1]⟩ :=
  ⟨⟨rfl, rfl⟩, (rotation_matrix_x_y_axis sample_cmath_pi 3).2 rfl rfl⟩

/-- C23: the named direction constants form the stated basis:
`vector3::forwards.cross(vector3::up)` is `vector3::right` component for component, so
the two are `==` for any `approx_equal` that accepts equal values. -/
theorem forwards_cross_up :
    vector3.forwards.cross vector3.up = vector3.right ∧
    ∀ approx_equal : ℚ → ℚ → Bool, (∀ x, approx_equal x x = true) →
      vector3.eq_op approx_equal (vector3.forwards.cross vector3.up) vector3.right
        = true := by
  have h : vector3.forwards.cross vector3.up = vector3.right := by decide!
  refine ⟨h, ?_⟩
  intro approx_equal hrefl
  rw [h]
  simp [vector3.eq_op, hrefl]

/-- C24: the explicit-bounds orthographic matrix maps the view box onto the cube of
normalised coordinates. For `left != right`, `bottom != top` and `near != far`,
`orthographic_matrix(left, right, top, bottom, near, far)` times the homogeneous point
`(left, bottom, -near, 1)` is `(-1, -1, -1, 1)`, and times `(right, top, -far, 1)` is
`(1, 1, 1, 1)`. -/
theorem orthographic_matrix_box (_left _right _top _bottom _near_plane _far_plane : ℚ)
    (hlr : _left ≠ _right) (hbt : _bottom ≠ _top) (hnf : _near_plane ≠ _far_plane) :
    (orthographic_matrix _left _right _top _bottom _near_plane _far_plane).mul
        (⟨![_left, _bottom, -_near_plane, 1]⟩ : matrix 1 4)
      = ⟨![-1, -1, -1, 1]⟩ ∧
    (orthographic_matrix _left _right _top _bottom _near_plane _far_plane).mul
        (⟨![_right, _top, -_far_plane, 1]⟩ : matrix 1 4)
      = ⟨![1, 1, 1, 1]⟩ := by
  have h1 : _right - _left ≠ 0 := sub_ne_zero.mpr (Ne.symm hlr)
  have h2 : _left - _right ≠ 0 := sub_ne_zero.mpr hlr
  have h3 : _top - _bottom ≠ 0 := sub_ne_zero.mpr (Ne.symm hbt)
  have h4 : _bottom - _top ≠ 0 := sub_ne_zero.mpr hbt
  have h5 : _near_plane - _far_plane ≠ 0 := sub_ne_zero.mpr hnf
  constructor
  · apply matrix.ext_get
    intro c r hc hr
    have hc0 : c = 0 := by omega
    subst hc0
    rw [matrix.get_mul _ _ (by decide) hr, matrix.column_get _ _ _ _ hr]
    simp only [Finset.sum_range_succ, Finset.sum_range_zero]
    rw [matrix.column_get _ _ _ _ (by decide : 0 < 4),
      matrix.column_get _ _ _ _ (by decide : 1 < 4),
      matrix.column_get _ _ _ _ (by decide : 2 < 4),
      matrix.column_get _ _ _ _ (by decide : 3 < 4),
      orthographic_matrix_get _ _ _ _ _ _ (by decide) hr,
      orthographic_matrix_get _ _ _ _ _ _ (by decide) hr,
      orthographic_matrix_get _ _ _ _ _ _ (by decide) hr,
      orthographic_matrix_get _ _ _ _ _ _ (by decide) hr]
    interval_cases r <;> simp <;> field_simp <;> ring
  · apply matrix.ext_get
    intro c r hc hr
    have hc0 : c = 0 := by omega
    subst hc0
    rw [matrix.get_mul _ _ (by decide) hr, matrix.column_get _ _ _ _ hr]
    simp only [Finset.sum_range_succ, Finset.sum_range_zero]
    rw [matrix.column_get _ _ _ _ (by decide : 0 < 4),
      matrix.column_get _ _ _ _ (by decide : 1 < 4),
      matrix.column_get _ _ _ _ (by decide : 2 < 4),
      matrix.column_get _ _ _ _ (by decide : 3 < 4),
      orthographic_matrix_get _ _ _ _ _ _ (by decide) hr,
      orthographic_matrix_get _ _ _ _ _ _ (by decide) hr,
      orthographic_matrix_get _ _ _ _ _ _ (by decide) hr,
      orthographic_matrix_get _ _ _ _ _ _ (by decide) hr]
    interval_cases r <;> simp <;> field_simp <;> ring

/-- The box `[-3, 5] x [-2, 4]` with `near = 1`, `far = 7`. -/
theorem orthographic_matrix_box_witness :
    ((-3 : ℚ) ≠ 5 ∧ (-2 : ℚ) ≠ 4 ∧ (1 : ℚ) ≠ 7) ∧
    (orthographic_matrix (-3) 5 4 (-2) 1 7).mul (⟨![-3, -2, -1, 1]⟩ : matrix 1 4)
      = ⟨![-1, -1, -1, 1]⟩ ∧
    (orthographic_matrix (-3) 5 4 (-2) 1 7).mul (⟨![5, 4, -7, 1]⟩ : matrix 1 4)
      = ⟨![1, 1, 1, 1]⟩ :=
  ⟨⟨by norm_num, by norm_num, by norm_num⟩,
    orthographic_matrix_box (-3) 5 4 (-2) 1 7 (by norm_num) (by norm_num) (by norm_num)⟩

/-- C26: the matrix product is associative. For `A` of `k` columns and `m` rows, `B` of
`n` columns and `k` rows and `C` of `p` columns and `n` rows, `(A * B) * C` is
`A * (B * C)` entry for entry, over exact numbers. -/
theorem mul_assoc_matrix (k m n p : Nat) (A : matrix k m) (B : matrix n k) (C : matrix p n) :
    (A.mul B).mul C = A.mul (B.mul C) := by
  apply matrix.ext_get
  intro c r hc hr
  rw [matrix.get_mul (A.mul B) C hc hr, matrix.get_mul A (B.mul C) hc hr]
  have hleft : (Finset.range n).sum (fun t => (A.mul B).get t r * C.get c t)
      = (Finset.range n).sum (fun t =>
          (Finset.range k).sum (fun s => A.get s r * B.get t s * C.get c t)) :=
    Finset.sum_congr rfl (fun t ht => by
      rw [matrix.get_mul A B (Finset.mem_range.mp ht) hr, Finset.sum_mul])
  have hright : (Finset.range k).sum (fun s => A.get s r * (B.mul C).get c s)
      = (Finset.range k).sum (fun s =>
          (Finset.range n).sum (fun t => A.get s r * (B.get t s * C.get c t))) :=
    Finset.sum_congr rfl (fun s hs => by
      rw [matrix.get_mul B C hc (Finset.mem_range.mp hs), Finset.mul_sum])
  rw [hleft, hright, Finset.sum_comm]
  apply Finset.sum_congr rfl
  intro s _
  apply Finset.sum_congr rfl
  intro t _
  ring

/-- C27: translations compose additively: for all vectors `a` and `b`,
`translation_matrix(a) * translation_matrix(b)` is `translation_matrix(a + b)`. -/
theorem translation_matrix_mul (a b : vector3) :
    (translation_matrix a).mul (translation_matrix b) = translation_matrix (a.add b) := by
  apply matrix.ext_get
  intro c r hc hr
  rw [matrix.get_mul _ _ hc hr, translation_matrix_get _ hc hr]
  simp only [Finset.sum_range_succ, Finset.sum_range_zero]
  rw [translation_matrix_get a (by decide : 0 < 4) hr,
    translation_matrix_get a (by decide : 1 < 4) hr,
    translation_matrix_get a (by decide : 2 < 4) hr,
    translation_matrix_get a (by decide : 3 < 4) hr,
    translation_matrix_get b hc (by decide : 0 < 4),
    translation_matrix_get b hc (by decide : 1 < 4),
    translation_matrix_get b hc (by decide : 2 < 4),
    translation_matrix_get b hc (by decide : 3 < 4)]
  interval_cases c <;> interval_cases r <;> simp [vector3.add] <;> ring

/-- C28: the 4x4 inverse undoes a translation: for every vector `t`,
`inverse_matrix(translation_matrix(t))`, the call of the overload for `matrix4x4`, is
`translation_matrix(-t)`. -/
theorem inverse_matrix4x4_translation (t : vector3) :
    inverse_matrix4x4 (translation_matrix t) = translation_matrix t.neg := by
  have hdet : inverse_matrix4x4_determinant (translation_matrix t) = 1 := by
    rw [inverse_matrix4x4_determinant_eq, inverse_matrix4x4_mat_read_0,
      inverse_matrix4x4_mat_read_4, inverse_matrix4x4_mat_read_8,
      inverse_matrix4x4_mat_read_12]
    simp [translation_matrix_read]
  apply matrix.ext_read
  intro i hi
  have hi16 : i < 16 := hi
  rw [inverse_matrix4x4_read, hdet, translation_matrix_read _ hi16]
  interval_cases i <;>
    simp [inverse_matrix4x4_mat_read_0, inverse_matrix4x4_mat_read_1,
      inverse_matrix4x4_mat_read_2, inverse_matrix4x4_mat_read_3,
      inverse_matrix4x4_mat_read_4, inverse_matrix4x4_mat_read_5,
      inverse_matrix4x4_mat_read_6, inverse_matrix4x4_mat_read_7,
      inverse_matrix4x4_mat_read_8, inverse_matrix4x4_mat_read_9,
      inverse_matrix4x4_mat_read_10, inverse_matrix4x4_mat_read_11,
      inverse_matrix4x4_mat_read_12, inverse_matrix4x4_mat_read_13,
      inverse_matrix4x4_mat_read_14, inverse_matrix4x4_mat_read_15,
      translation_matrix_read, vector3.neg]

/-- A 4x4 matrix whose entries are those of a rotation about an axis, in the sense that
its products with its transpose have the entries of the identity, is orthogonal. -/
theorem orthogonal_of_entries (R : matrix 4 4)
    (hrow : ∀ c r, c < 4 → r < 4 →
      (Finset.range 4).sum (fun k => R.get k r * R.get k c) = if c = r then 1 else 0)
    (hcol : ∀ c r, c < 4 → r < 4 →
      (Finset.range 4).sum (fun k => R.get r k * R.get c k) = if c = r then 1 else 0) :
    R.mul R.transposed = matrix.identity 4 ∧ R.transposed.mul R = matrix.identity 4 := by
  constructor
  · apply matrix.ext_get
    intro c r hc hr
    rw [matrix.get_mul _ _ hc hr, matrix.get_identity 4 hc hr, ← hrow c r hc hr]
    apply Finset.sum_congr rfl
    intro k hk
    rw [matrix.get_transposed R (Finset.mem_range.mp hk) hc]
  · apply matrix.ext_get
    intro c r hc hr
    rw [matrix.get_mul _ _ hc hr, matrix.get_identity 4 hc hr, ← hcol c r hc hr]
    apply Finset.sum_congr rfl
    intro k hk
    rw [matrix.get_transposed R hr (Finset.mem_range.mp hk)]

/-- C29: the axis rotation matrices are orthogonal. For every angle `a`, assuming only
`cos(a)^2 + sin(a)^2 = 1`, each of `R = rotation_matrix_x(a)`, `rotation_matrix_y(a)`,
`rotation_matrix_z(a)` has `R * R.transposed()` and `R.transposed() * R` equal to
`identity()` element for element, so both are `==` to it for any `approx_equal` that
accepts equal values. -/
theorem rotation_matrices_orthogonal (std : cmath) (_angle : ℚ)
    (h : std.cos _angle ^ 2 + std.sin _angle ^ 2 = 1) :
    ((rotation_matrix_x std _angle).mul (rotation_matrix_x std _angle).transposed
        = matrix.identity 4 ∧
      (rotation_matrix_x std _angle).transposed.mul (rotation_matrix_x std _angle)
        = matrix.identity 4) ∧
    ((rotation_matrix_y std _angle).mul (rotation_matrix_y std _angle).transposed
        = matrix.identity 4 ∧
      (rotation_matrix_y std _angle).transposed.mul (rotation_matrix_y std _angle)
        = matrix.identity 4) ∧
    ((rotation_matrix_z std _angle).mul (rotation_matrix_z std _angle).transposed
        = matrix.identity 4 ∧
      (rotation_matrix_z std _angle).transposed.mul (rotation_matrix_z std _angle)
        = matrix.identity 4) ∧
    ∀ approx_equal : ℚ → ℚ → Bool, (∀ x, approx_equal x x = true) →
      ∀ R : matrix 4 4,
        R = rotation_matrix_x std _angle ∨ R = rotation_matrix_y std _angle ∨
          R = rotation_matrix_z std _angle →
        matrix.eq_op approx_equal (R.mul R.transposed) (matrix.identity 4) = true ∧
        matrix.eq_op approx_equal (R.transposed.mul R) (matrix.identity 4) = true := by
  have h' : std.cos _angle * std.cos _angle + std.sin _angle * std.sin _angle = 1 := by
    rw [← h]; ring
  have h'' : std.sin _angle * std.sin _angle + std.cos _angle * std.cos _angle = 1 := by
    rw [← h]; ring
  have hx := orthogonal_of_entries (rotation_matrix_x std _angle)
    (by
      intro c r hc hr
      simp only [Finset.sum_range_succ, Finset.sum_range_zero]
      rw [rotation_matrix_x_get std _angle (by decide : 0 < 4) hr,
        rotation_matrix_x_get std _angle (by decide : 1 < 4) hr,
        rotation_matrix_x_get std _angle (by decide : 2 < 4) hr,
        rotation_matrix_x_get std _angle (by decide : 3 < 4) hr,
        rotation_matrix_x_get std _angle (by decide : 0 < 4) hc,
        rotation_matrix_x_get std _angle (by decide : 1 < 4) hc,
        rotation_matrix_x_get std _angle (by decide : 2 < 4) hc,
        rotation_matrix_x_get std _angle (by decide : 3 < 4) hc]
      interval_cases c <;> interval_cases r <;> simp [h', h''] <;> ring)
    (by
      intro c r hc hr
      simp only [Finset.sum_range_succ, Finset.sum_range_zero]
      rw [rotation_matrix_x_get std _angle hr (by decide : 0 < 4),
        rotation_matrix_x_get std _angle hr (by decide : 1 < 4),
        rotation_matrix_x_get std _angle hr (by decide : 2 < 4),
        rotation_matrix_x_get std _angle hr (by decide : 3 < 4),
        rotation_matrix_x_get std _angle hc (by decide : 0 < 4),
        rotation_matrix_x_get std _angle hc (by decide : 1 < 4),
        rotation_matrix_x_get std _angle hc (by decide : 2 < 4),
        rotation_matrix_x_get std _angle hc (by decide : 3 < 4)]
      interval_cases c <;> interval_cases r <;> simp [h', h''] <;> ring)
  have hy := orthogonal_of_entries (rotation_matrix_y std _angle)
    (by
      intro c r hc hr
      simp only [Finset.sum_range_succ, Finset.sum_range_zero]
      rw [rotation_matrix_y_get std _angle (by decide : 0 < 4) hr,
        rotation_matrix_y_get std _angle (by decide : 1 < 4) hr,
        rotation_matrix_y_get std _angle (by decide : 2 < 4) hr,
        rotation_matrix_y_get std _angle (by decide : 3 < 4) hr,
        rotation_matrix_y_get std _angle (by decide : 0 < 4) hc,
        rotation_matrix_y_get std _angle (by decide : 1 < 4) hc,
        rotation_matrix_y_get std _angle (by decide : 2 < 4) hc,
        rotation_matrix_y_get std _angle (by decide : 3 < 4) hc]
      interval_cases c <;> interval_cases r <;> simp [h', h''] <;> ring)
    (by
      intro c r hc hr
      simp only [Finset.sum_range_succ, Finset.sum_range_zero]
      rw [rotation_matrix_y_get std _angle hr (by decide : 0 < 4),
        rotation_matrix_y_get std _angle hr (by decide : 1 < 4),
        rotation_matrix_y_get std _angle hr (by decide : 2 < 4),
        rotation_matrix_y_get std _angle hr (by decide : 3 < 4),
        rotation_matrix_y_get std _angle hc (by decide : 0 < 4),
        rotation_matrix_y_get std _angle hc (by decide : 1 < 4),
        rotation_matrix_y_get std _angle hc (by decide : 2 < 4),
        rotation_matrix_y_get std _angle hc (by decide : 3 < 4)]
      interval_cases c <;> interval_cases r <;> simp [h', h''] <;> ring)
  have hz := orthogonal_of_entries (rotation_matrix_z std _angle)
    (by
      intro c r hc hr
      simp only [Finset.sum_range_succ, Finset.sum_range_zero]
      rw [rotation_matrix_z_get std _angle (by decide : 0 < 4) hr,
        rotation_matrix_z_get std _angle (by decide : 1 < 4) hr,
        rotation_matrix_z_get std _angle (by decide : 2 < 4) hr,
        rotation_matrix_z_get std _angle (by decide : 3 < 4) hr,
        rotation_matrix_z_get std _angle (by decide : 0 < 4) hc,
        rotation_matrix_z_get std _angle (by decide : 1 < 4) hc,
        rotation_matrix_z_get std _angle (by decide : 2 < 4) hc,
        rotation_matrix_z_get std _angle (by decide : 3 < 4) hc]
      interval_cases c <;> interval_cases r <;> simp [h', h''] <;> ring)
    (by
      intro c r hc hr
      simp only [Finset.sum_range_succ, Finset.sum_range_zero]
      rw [rotation_matrix_z_get std _angle hr (by decide : 0 < 4),
        rotation_matrix_z_get std _angle hr (by decide : 1 < 4),
        rotation_matrix_z_get std _angle hr (by decide : 2 < 4),
        rotation_matrix_z_get std _angle hr (by decide : 3 < 4),
        rotation_matrix_z_get std _angle hc (by decide : 0 < 4),
        rotation_matrix_z_get std _angle hc (by decide : 1 < 4),
        rotation_matrix_z_get std _angle hc (by decide : 2 < 4),
        rotation_matrix_z_get std _angle hc (by decide : 3 < 4)]
      interval_cases c <;> interval_cases r <;> simp [h', h''] <;> ring)
  refine ⟨hx, hy, hz, ?_⟩
  intro approx_equal hrefl R hR
  rcases hR with rfl | rfl | rfl
  · rw [hx.1, hx.2]
    exact ⟨matrix.eq_op_self approx_equal hrefl _, matrix.eq_op_self approx_equal hrefl _⟩
  · rw [hy.1, hy.2]
    exact ⟨matrix.eq_op_self approx_equal hrefl _, matrix.eq_op_self approx_equal hrefl _⟩
  · rw [hz.1, hz.2]
    exact ⟨matrix.eq_op_self approx_equal hrefl _, matrix.eq_op_self approx_equal hrefl _⟩

/-- The rotations with cosine `3/5` and sine `4/5`. -/
theorem rotation_matrices_orthogonal_witness :
    sample_cmath.cos 3 ^ 2 + sample_cmath.sin 3 ^ 2 = 1 ∧
    ((rotation_matrix_x sample_cmath 3).mul (rotation_matrix_x sample_cmath 3).transposed
        = matrix.identity 4 ∧
      (rotation_matrix_x sample_cmath 3).transposed.mul (rotation_matrix_x sample_cmath 3)
        = matrix.identity 4) ∧
    ((rotation_matrix_y sample_cmath 3).mul (rotation_matrix_y sample_cmath 3).transposed
        = matrix.identity 4 ∧
      (rotation_matrix_y sample_cmath 3).transposed.mul (rotation_matrix_y sample_cmath 3)
        = matrix.identity 4) ∧
    ((rotation_matrix_z sample_cmath 3).mul (rotation_matrix_z sample_cmath 3).transposed
        = matrix.identity 4 ∧
      (rotation_matrix_z sample_cmath 3).transposed.mul (rotation_matrix_z sample_cmath 3)
        = matrix.identity 4) :=
  have h : sample_cmath.cos 3 ^ 2 + sample_cmath.sin 3 ^ 2 = 1 := by
    show ((3 : ℚ) / 5) ^ 2 + ((4 : ℚ) / 5) ^ 2 = 1
    norm_num
  ⟨h, (rotation_matrices_orthogonal sample_cmath 3 h).1,
    (rotation_matrices_orthogonal sample_cmath 3 h).2.1,
    (rotation_matrices_orthogonal sample_cmath 3 h).2.2.1⟩

/-- C30: the cross product is perpendicular to both operands and anti-commutative. For
all vectors `a` and `b` over exact numbers, `a.cross(b).dot(a) = 0`,
`a.cross(b).dot(b) = 0`, and `b.cross(a)` is `-(a.cross(b))` component for component. -/
theorem cross_perpendicular_anticommutative (a b : vector3) :
    (a.cross b).dot a = 0 ∧ (a.cross b).dot b = 0 ∧ b.cross a = (a.cross b).neg := by
  refine ⟨?_, ?_, ?_⟩
  · simp only [vector3.cross, vector3.dot]; ring
  · simp only [vector3.cross, vector3.dot]; ring
  · simp only [vector3.cross, vector3.neg, vector3.mk.injEq]
    refine ⟨?_, ?_, ?_⟩ <;> ring

end mkr

/-! ## The writes of `minor_matrix` -/

namespace mkr
namespace matrix_util

theorem product_append_singleton {α β : Type} (l₁ : List α) (a : α) (l₂ : List β) :
    (l₁ ++ [a]) ×ˢ l₂ = l₁ ×ˢ l₂ ++ l₂.map (fun b => (a, b)) := by
  induction l₁ with
  | nil => simp [List.product_cons]
  | cons x l₁ ih =>
    rw [List.cons_append, List.product_cons, ih, List.product_cons, List.append_assoc]

/-- The inner loop of `minor_matrix` after `n` iterations: the counter and the cells
written, which are the rows `0, 1, ...` of column `minor_col` in order. -/
theorem minor_matrix_rows_writes_loop {Size : Nat} (_matrix : matrix Size Size)
    (_cofactor_row major_col minor_col n : Nat) :
    (loop n (fun major_row (st : List (Nat × Nat × ℚ) × Nat) =>
        if major_row = _cofactor_row then st
        else (st.1 ++ [(minor_col, st.2, _matrix.get major_col major_row)], st.2 + 1))
        ([], 0)).2 = skip_count _cofactor_row n ∧
    (loop n (fun major_row (st : List (Nat × Nat × ℚ) × Nat) =>
        if major_row = _cofactor_row then st
        else (st.1 ++ [(minor_col, st.2, _matrix.get major_col major_row)], st.2 + 1))
        ([], 0)).1.map write_cell
      = (List.range (skip_count _cofactor_row n)).map (fun j => (minor_col, j)) := by
  induction n with
  | zero => exact ⟨by simp [skip_count], by simp [skip_count]⟩
  | succ k ih =>
    obtain ⟨ih2, ih1⟩ := ih
    rw [loop_succ]
    by_cases hk : k = _cofactor_row
    · rw [if_pos hk]
      subst hk
      rw [skip_count_succ_self]
      exact ⟨ih2, ih1⟩
    · rw [if_neg hk]
      have hcnt := (skip_step hk 0).2.2
      refine ⟨?_, ?_⟩
      · show _ + 1 = _
        rw [ih2, hcnt]
      · show List.map write_cell (_ ++ [_]) = _
        rw [List.map_append, ih1, ← hcnt, List.range_succ, List.map_append, ih2]
        rfl

/-- The cells written by the inner loop of `minor_matrix`, run to its end. -/
theorem minor_matrix_rows_writes_cells {Size : Nat} (_matrix : matrix Size Size)
    (_cofactor_row major_col minor_col : Nat) :
    (minor_matrix_rows_writes _matrix _cofactor_row major_col minor_col).1.map write_cell
      = (List.range (skip_count _cofactor_row Size)).map (fun j => (minor_col, j)) :=
  (minor_matrix_rows_writes_loop _matrix _cofactor_row major_col minor_col Size).2

/-- The outer loop of `minor_matrix` after `n` iterations: the counter and the cells
written. -/
theorem minor_matrix_writes_loop {Size : Nat} (_matrix : matrix Size Size)
    (_cofactor_col _cofactor_row n : Nat) :
    (loop n (fun major_col (st : List (Nat × Nat × ℚ) × Nat) =>
        if major_col = _cofactor_col then st
        else (st.1 ++ (minor_matrix_rows_writes _matrix _cofactor_row major_col st.2).1,
          st.2 + 1)) ([], 0)).2 = skip_count _cofactor_col n ∧
    (loop n (fun major_col (st : List (Nat × Nat × ℚ) × Nat) =>
        if major_col = _cofactor_col then st
        else (st.1 ++ (minor_matrix_rows_writes _matrix _cofactor_row major_col st.2).1,
          st.2 + 1)) ([], 0)).1.map write_cell
      = List.range (skip_count _cofactor_col n)
          ×ˢ List.range (skip_count _cofactor_row Size) := by
  induction n with
  | zero => exact ⟨by simp [skip_count], by simp [skip_count]⟩
  | succ k ih =>
    obtain ⟨ih2, ih1⟩ := ih
    rw [loop_succ]
    by_cases hk : k = _cofactor_col
    · rw [if_pos hk]
      subst hk
      rw [skip_count_succ_self]
      exact ⟨ih2, ih1⟩
    · rw [if_neg hk]
      have hcnt := (skip_step hk 0).2.2
      refine ⟨?_, ?_⟩
      · show _ + 1 = _
        rw [ih2, hcnt]
      · show List.map write_cell (_ ++ _) = _
        rw [List.map_append, ih1, minor_matrix_rows_writes_cells, ← hcnt, List.range_succ,
          product_append_singleton, ih2]

/-- The cells that `minor_matrix` writes, in order: the columns
`0, ..., skip_count _cofactor_col Size - 1`, and in each the rows
`0, ..., skip_count _cofactor_row Size - 1`. -/
theorem minor_matrix_writes_cells {Size : Nat} (_matrix : matrix Size Size)
    (_cofactor_col _cofactor_row : Nat) :
    (minor_matrix_writes _matrix _cofactor_col _cofactor_row).map write_cell
      = List.range (skip_count _cofactor_col Size)
          ×ˢ List.range (skip_count _cofactor_row Size) :=
  (minor_matrix_writes_loop _matrix _cofactor_col _cofactor_row Size).2

/-- The inner loop of `minor_matrix` makes the recorded writes, in order, on `mat`. -/
theorem minor_matrix_rows_eq_writes {Size : Nat} (_matrix : matrix Size Size)
    (_cofactor_row major_col minor_col : Nat) (mat : matrix (Size - 1) (Size - 1))
    (n : Nat) :
    loop n (fun major_row (st : matrix (Size - 1) (Size - 1) × Nat) =>
        if major_row = _cofactor_row then st
        else (st.1.set minor_col st.2 (_matrix.get major_col major_row), st.2 + 1)) (mat, 0)
      = ((loop n (fun major_row (st : List (Nat × Nat × ℚ) × Nat) =>
          if major_row = _cofactor_row then st
          else (st.1 ++ [(minor_col, st.2, _matrix.get major_col major_row)], st.2 + 1))
          ([], 0)).1.foldl apply_write mat,
        (loop n (fun major_row (st : List (Nat × Nat × ℚ) × Nat) =>
          if major_row = _cofactor_row then st
          else (st.1 ++ [(minor_col, st.2, _matrix.get major_col major_row)], st.2 + 1))
          ([], 0)).2) := by
  induction n with
  | zero => rfl
  | succ k ih =>
    rw [loop_succ, loop_succ, ih]
    by_cases hk : k = _cofactor_row
    · rw [if_pos hk, if_pos hk]
    · rw [if_neg hk, if_neg hk]
      simp only [List.foldl_append, List.foldl_cons, List.foldl_nil]
      rfl

/-- The outer loop of `minor_matrix` makes the recorded writes, in order, on a zero
matrix. -/
theorem minor_matrix_cols_eq_writes {Size : Nat} (_matrix : matrix Size Size)
    (_cofactor_col _cofactor_row n : Nat) :
    loop n (fun major_col (st : matrix (Size - 1) (Size - 1) × Nat) =>
        if major_col = _cofactor_col then st
        else ((minor_matrix_rows _matrix _cofactor_row major_col st.2 st.1).1, st.2 + 1))
        (matrix.zero, 0)
      = ((loop n (fun major_col (st : List (Nat × Nat × ℚ) × Nat) =>
          if major_col = _cofactor_col then st
          else (st.1 ++ (minor_matrix_rows_writes _matrix _cofactor_row major_col st.2).1,
            st.2 + 1)) ([], 0)).1.foldl apply_write matrix.zero,
        (loop n (fun major_col (st : List (Nat × Nat × ℚ) × Nat) =>
          if major_col = _cofactor_col then st
          else (st.1 ++ (minor_matrix_rows_writes _matrix _cofactor_row major_col st.2).1,
            st.2 + 1)) ([], 0)).2) := by
  induction n with
  | zero => rfl
  | succ k ih =>
    rw [loop_succ, loop_succ, ih]
    by_cases hk : k = _cofactor_col
    · rw [if_pos hk, if_pos hk]
    · rw [if_neg hk, if_neg hk]
      simp only [List.foldl_append]
      unfold minor_matrix_rows minor_matrix_rows_writes
      rw [minor_matrix_rows_eq_writes]

/-- The local `mat` at the end of the loops of `minor_matrix` is the result of the
recorded writes, made in order on a zero matrix. -/
theorem minor_matrix_eq_writes {Size : Nat} (_matrix : matrix Size Size)
    (_cofactor_col _cofactor_row : Nat) :
    (minor_matrix_cols _matrix _cofactor_col _cofactor_row).1
      = (minor_matrix_writes _matrix _cofactor_col _cofactor_row).foldl apply_write
          matrix.zero := by
  unfold minor_matrix_cols minor_matrix_writes
  rw [minor_matrix_cols_eq_writes]

end matrix_util
end mkr

/-! ## The properties, continued: the writes of `minor_matrix` -/

namespace mkr
open matrix_util

/-- C31: the writes of the loops of `minor_matrix`, with the counters read as `size_t`.
For every `Size >= 2`, the local `mat` at the end of the loops is the result of the
writes `mat[minor_col][minor_row] = ...`, made in order on a zero matrix. For
`_cofactor_col < Size` and `_cofactor_row < Size` every write has
`minor_col < Size - 1` and `minor_row < Size - 1`, each of the `(Size - 1) * (Size - 1)`
cells is the destination of exactly one write, and there are that many writes.
If `_cofactor_col >= Size` or `_cofactor_row >= Size`, some write has an index equal to
`Size - 1`, which is out of range. (As written the counters are `float`, and the
assignment, which indexes a `float*` by a `float`, is ill-formed.) -/
theorem minor_matrix_writes_in_bounds (Size : Nat) (_matrix : matrix Size Size)
    (_cofactor_col _cofactor_row : Nat) (hsize : 2 ≤ Size) :
    (minor_matrix_cols _matrix _cofactor_col _cofactor_row).1
      = (minor_matrix_writes _matrix _cofactor_col _cofactor_row).foldl apply_write
          matrix.zero ∧
    (_cofactor_col < Size → _cofactor_row < Size →
      (∀ w, w ∈ minor_matrix_writes _matrix _cofactor_col _cofactor_row →
        w.1 < Size - 1 ∧ w.2.1 < Size - 1) ∧
      (∀ i j, i < Size - 1 → j < Size - 1 →
        (minor_matrix_writes _matrix _cofactor_col _cofactor_row).countP
          (fun w => decide (write_cell w = (i, j))) = 1) ∧
      (minor_matrix_writes _matrix _cofactor_col _cofactor_row).length
        = (Size - 1) * (Size - 1)) ∧
    (Size ≤ _cofactor_col ∨ Size ≤ _cofactor_row →
      ∃ w, w ∈ minor_matrix_writes _matrix _cofactor_col _cofactor_row ∧
        (w.1 = Size - 1 ∨ w.2.1 = Size - 1)) := by
  have hcells := minor_matrix_writes_cells _matrix _cofactor_col _cofactor_row
  refine ⟨minor_matrix_eq_writes _matrix _cofactor_col _cofactor_row, ?_, ?_⟩
  · intro hcol hrow
    rw [skip_count_size hcol, skip_count_size hrow] at hcells
    refine ⟨?_, ?_, ?_⟩
    · intro w hw
      have hmem : write_cell w ∈ List.range (Size - 1) ×ˢ List.range (Size - 1) := by
        rw [← hcells]
        exact List.mem_map_of_mem write_cell hw
      have h := List.mem_product.mp hmem
      exact ⟨List.mem_range.mp h.1, List.mem_range.mp h.2⟩
    · intro i j hi hj
      have h : List.countP (fun cell => decide (cell = (i, j)))
          (List.range (Size - 1) ×ˢ List.range (Size - 1)) = 1 :=
        List.count_eq_one_of_mem
          (List.Nodup.product (List.nodup_range (Size - 1)) (List.nodup_range (Size - 1)))
          (List.mem_product.mpr ⟨List.mem_range.mpr hi, List.mem_range.mpr hj⟩)
      rw [← hcells, List.countP_map] at h
      exact h
    · have hlen := congrArg List.length hcells
      rw [List.length_map, List.length_product, List.length_range] at hlen
      exact hlen
  · intro hout
    have hcc : Size - 1 ≤ skip_count _cofactor_col Size := by
      unfold skip_count; split <;> omega
    have hcr : Size - 1 ≤ skip_count _cofactor_row Size := by
      unfold skip_count; split <;> omega
    have hcell : ∃ cell : Nat × Nat,
        cell ∈ List.range (skip_count _cofactor_col Size)
          ×ˢ List.range (skip_count _cofactor_row Size) ∧
        (cell.1 = Size - 1 ∨ cell.2 = Size - 1) := by
      rcases hout with h | h
      · have e : skip_count _cofactor_col Size = Size := by
          unfold skip_count; rw [if_pos h]
        refine ⟨(Size - 1, 0), List.mem_product.mpr ⟨?_, ?_⟩, Or.inl rfl⟩
        · rw [e]; exact List.mem_range.mpr (by omega)
        · exact List.mem_range.mpr (by omega)
      · have e : skip_count _cofactor_row Size = Size := by
          unfold skip_count; rw [if_pos h]
        refine ⟨(0, Size - 1), List.mem_product.mpr ⟨?_, ?_⟩, Or.inr rfl⟩
        · exact List.mem_range.mpr (by omega)
        · rw [e]; exact List.mem_range.mpr (by omega)
    obtain ⟨cell, hmem, hidx⟩ := hcell
    rw [← hcells] at hmem
    obtain ⟨w, hw, hwc⟩ := List.mem_map.mp hmem
    refine ⟨w, hw, ?_⟩
    rw [← hwc] at hidx
    exact hidx

/-- The writes of `minor_matrix` on the 3x3 shear: deleting column 1 and row 0 they stay
within the 2x2 destination and write each cell once; with the column index 3, out of
range, some write has the index 2. -/
theorem minor_matrix_writes_in_bounds_witness :
    (2 ≤ 3 ∧ 1 < 3 ∧ 0 < 3 ∧ (3 ≤ 3 ∨ 3 ≤ 0)) ∧
    ((∀ w, w ∈ minor_matrix_writes sample_shear_3x3 1 0 → w.1 < 3 - 1 ∧ w.2.1 < 3 - 1) ∧
      (∀ i j, i < 3 - 1 → j < 3 - 1 →
        (minor_matrix_writes sample_shear_3x3 1 0).countP
          (fun w => decide (write_cell w = (i, j))) = 1) ∧
      (minor_matrix_writes sample_shear_3x3 1 0).length = (3 - 1) * (3 - 1)) ∧
    (∃ w, w ∈ minor_matrix_writes sample_shear_3x3 3 0 ∧ (w.1 = 3 - 1 ∨ w.2.1 = 3 - 1)) :=
  ⟨by decide,
    (minor_matrix_writes_in_bounds 3 sample_shear_3x3 1 0 (by decide)).2.1 (by decide)
      (by decide),
    (minor_matrix_writes_in_bounds 3 sample_shear_3x3 3 0 (by decide)).2.2
      (Or.inl (by decide))⟩

end mkr
